import Mathlib

set_option maxHeartbeats 1000000

namespace BlackJ

/-- Model of Python str.upper on one ASCII character. -/
def pyUpperChar (c : Char) : Char :=
  if 'a' ≤ c ∧ c ≤ 'z' then Char.ofNat (c.toNat - 32) else c

/-- Model of Python str.upper (ASCII range; all strings in this program are ASCII). -/
def pyUpper (s : String) : String := ⟨s.data.map pyUpperChar⟩

/-- Model of Python str.lower on one ASCII character. -/
def pyLowerChar (c : Char) : Char :=
  if 'A' ≤ c ∧ c ≤ 'Z' then Char.ofNat (c.toNat + 32) else c

/-- Model of Python str.lower (ASCII range). -/
def pyLower (s : String) : String := ⟨s.data.map pyLowerChar⟩

/-- ASCII whitespace as recognized by Python str.strip. -/
def pyIsSpace (c : Char) : Bool :=
  c == ' ' || c == '\t' || c == '\n' || c == '\r' || c == Char.ofNat 11 || c == Char.ofNat 12

/-- Model of Python str.strip with no argument: drop leading and trailing whitespace. -/
def pyStrip (s : String) : String :=
  ⟨((s.data.dropWhile pyIsSpace).reverse.dropWhile pyIsSpace).reverse⟩

/-- The normalization card.upper().strip() applied by the CardZone methods. -/
def normCard (s : String) : String := pyStrip (pyUpper s)

/-- Decimal value of a digit list. -/
def digitsVal (l : List Char) : Nat := l.foldl (fun a c => a * 10 + (c.toNat - 48)) 0

/-- A nonempty all-digit list. -/
def digitsOk (l : List Char) : Bool := !l.isEmpty && l.all Char.isDigit

/-- Model of Python int() applied to a string: an optional sign followed by decimal
digits.  Python additionally accepts surrounding whitespace and underscores between
digits; the callers in this program pass already stripped identifiers, so those
inputs are treated as failing to parse here. -/
def pyInt (s : String) : Option Int :=
  match s.data with
  | '-' :: rest => if digitsOk rest then some (-(digitsVal rest : Int)) else none
  | '+' :: rest => if digitsOk rest then some ((digitsVal rest : Int)) else none
  | l => if digitsOk l then some ((digitsVal l : Int)) else none

/-- Model of str.replace with pattern "player" and empty replacement: remove every
non-overlapping occurrence, scanning left to right. -/
def replacePlayerChars : List Char → List Char
  | 'p' :: 'l' :: 'a' :: 'y' :: 'e' :: 'r' :: rest => replacePlayerChars rest
  | c :: rest => c :: replacePlayerChars rest
  | [] => []

/-- String version of the player-token removal. -/
def replacePlayer (s : String) : String := ⟨replacePlayerChars s.data⟩

/-- Decimal digits of a positive number, most significant first; fuel-driven recursion. -/
def natDigitsAux : Nat → Nat → List Char
  | 0, _ => []
  | fuel + 1, n => if n = 0 then [] else natDigitsAux fuel (n / 10) ++ [Char.ofNat (48 + n % 10)]

/-- Decimal representation of a natural number, modelling Python str(n) for n ≥ 0. -/
def natRepr (n : Nat) : String := if n = 0 then "0" else ⟨natDigitsAux (n + 1) n⟩

/-- Decimal representation of an integer, modelling Python str(n). -/
def intRepr (n : Int) : String := if n < 0 then "-" ++ natRepr n.natAbs else natRepr n.natAbs

namespace PyDict

/-- First-match lookup in an association list modelling a Python dict. -/
def lookup {α β : Type} [DecidableEq α] (k : α) : List (α × β) → Option β
  | [] => none
  | p :: l => if p.1 = k then some p.2 else lookup k l

/-- Dict assignment d[k] = v: replace the entry in place, or append a new entry. -/
def set {α β : Type} [DecidableEq α] (k : α) (v : β) : List (α × β) → List (α × β)
  | [] => [(k, v)]
  | p :: l => if p.1 = k then (k, v) :: l else p :: set k v l

/-- Dict deletion del d[k]: drop the entry with the given key. -/
def erase {α β : Type} [DecidableEq α] (k : α) : List (α × β) → List (α × β)
  | [] => []
  | p :: l => if p.1 = k then l else p :: erase k l

/-- The key list of a dict, in insertion order. -/
def keys {α β : Type} (l : List (α × β)) : List α := l.map Prod.fst

/-- Sum of all values of a dict with natural number values. -/
def sumVals {α : Type} (l : List (α × Nat)) : Nat := (l.map Prod.snd).sum

/-- Count read with default 0 (what sampling a defaultdict int value yields). -/
def getD {α : Type} [DecidableEq α] (k : α) (l : List (α × Nat)) : Nat :=
  (lookup k l).getD 0

/-- Reading d[k] on a defaultdict(int): if the key is missing it is inserted with
value 0 as a side effect.  Returns the value and the possibly extended dict. -/
def readD (k : String) (l : List (String × Nat)) : Nat × List (String × Nat) :=
  match lookup k l with
  | some v => (v, l)
  | none => (0, l ++ [(k, 0)])

end PyDict

/-- The thirteen rank labels of the deck, in the order the source initializes them. -/
def rankList : List String :=
  ["2", "3", "4", "5", "6", "7", "8", "9", "10", "J", "Q", "K", "A"]

/-- Embedding of CardZone: a display name plus the cards defaultdict, represented as
an insertion-ordered association list (Python dicts never carry duplicate keys). -/
structure CardZone where
  name : String
  cards : List (String × Nat)
deriving DecidableEq

namespace CardZone

/-- add_card: normalize the label and increment its count (defaultdict read then write). -/
def add_card (z : CardZone) (card : String) (count : Nat) : CardZone :=
  let c := normCard card
  let r := PyDict.readD c z.cards
  { z with cards := PyDict.set c (r.1 + count) r.2 }

/-- remove_card: normalize, and decrement only if the current count is at least the
requested count, deleting the entry when it reaches zero.  The defaultdict read
inserts a zero-count entry when the label is absent, and on the failure branch that
entry is left behind, exactly as in the source. -/
def remove_card (z : CardZone) (card : String) (count : Nat) : Bool × CardZone :=
  let c := normCard card
  let r := PyDict.readD c z.cards
  if count ≤ r.1 then
    let l1 := PyDict.set c (r.1 - count) r.2
    let l2 := if r.1 - count = 0 then PyDict.erase c l1 else l1
    (true, { z with cards := l2 })
  else
    (false, { z with cards := r.2 })

/-- get_all_cards: one label per unit of count, in dict iteration order. -/
def get_all_cards (z : CardZone) : List String :=
  (z.cards.map (fun p => List.replicate p.2 p.1)).flatten

/-- clear: return the expanded card list and empty the zone. -/
def clear (z : CardZone) : List String × CardZone :=
  (z.get_all_cards, { z with cards := [] })

/-- total_cards: sum of all counts. -/
def total_cards (z : CardZone) : Nat := PyDict.sumVals z.cards

end CardZone

/-- The record produced by CardZone.to_dict. -/
structure CardZoneDict where
  name : String
  cards : List (String × Nat)
deriving DecidableEq

/-- CardZone.to_dict: serialize name and the cards mapping. -/
def CardZone.to_dict (z : CardZone) : CardZoneDict := ⟨z.name, z.cards⟩

/-- CardZone.from_dict: rebuild the zone; defaultdict(int, cards) keeps every entry. -/
def CardZone.from_dict (d : CardZoneDict) : CardZone := ⟨d.name, d.cards⟩

/-- Operation outcome, abstracting the success and error message strings the source
returns (ok for the check-mark messages, one tag per distinct error message). -/
inductive Res where
  | ok
  | cardUnavailable
  | invalidTarget
  | noFaceDown
  | noCards
deriving DecidableEq

/-- Embedding of GameState: the five zones, the face-down owner ledger (a plain
dict), the player mapping and the player-number counter. -/
structure GameState where
  deck : CardZone
  dealer_hand : CardZone
  discard : CardZone
  face_down : CardZone
  face_down_owners : List (String × Nat)
  players : List (Int × CardZone)
  next_player_number : Int
deriving DecidableEq

namespace GameState

/-- initialize_deck from the source: clear the deck and add four of each rank. -/
def init_deck (s : GameState) : GameState :=
  let d := (s.deck.clear).2
  { s with deck := rankList.foldl (fun z c => z.add_card c 4) d }

/-- A fresh GameState as built by the constructor: empty zones, no players,
counter 1, then initialize_deck. -/
def new : GameState :=
  init_deck
    { deck := ⟨"Deck", []⟩
      dealer_hand := ⟨"Dealer Hand", []⟩
      discard := ⟨"Discard Pile", []⟩
      face_down := ⟨"Face Down", []⟩
      face_down_owners := []
      players := []
      next_player_number := 1 }

/-- The identifier normalization at the top of get_player_zone: lower, strip,
delete the word player, strip again, and default an empty remainder to 1. -/
def playerIdToken (identifier : String) : String :=
  if pyStrip (replacePlayer (pyStrip (pyLower identifier))) = "" then "1"
  else pyStrip (replacePlayer (pyStrip (pyLower identifier)))

/-- get_player_zone: parse the normalized identifier as an int and look the number
up among the players. -/
def get_player_zone (s : GameState) (identifier : String) : Option (Int × CardZone) :=
  match pyInt (playerIdToken identifier) with
  | none => none
  | some n =>
    match PyDict.lookup n s.players with
    | some z => some (n, z)
    | none => none

/-- add_player: create an empty hand under the current counter value and bump it. -/
def add_player (s : GameState) : GameState :=
  { s with
    players := PyDict.set s.next_player_number
      ⟨"Player " ++ intRepr s.next_player_number ++ " Hand", []⟩ s.players
    next_player_number := s.next_player_number + 1 }

/-- deal_card: remove the card from the deck; on success add it to the dealer hand
or the resolved player hand, returning the card to the deck when the target token
does not resolve. -/
def deal_card (s : GameState) (card to_zone : String) : GameState × Res :=
  if (s.deck.remove_card (normCard card) 1).1 = false then
    ({ s with deck := (s.deck.remove_card (normCard card) 1).2 }, Res.cardUnavailable)
  else if pyLower to_zone = "dealer" then
    ({ s with
        deck := (s.deck.remove_card (normCard card) 1).2
        dealer_hand := s.dealer_hand.add_card (normCard card) 1 }, Res.ok)
  else
    match s.get_player_zone to_zone with
    | some nz =>
      ({ s with
          deck := (s.deck.remove_card (normCard card) 1).2
          players := PyDict.set nz.1 (nz.2.add_card (normCard card) 1) s.players }, Res.ok)
    | none =>
      ({ s with
          deck := ((s.deck.remove_card (normCard card) 1).2).add_card (normCard card) 1 },
        Res.invalidTarget)

/-- deal_face_down: require a card to remain in deck or face-down, resolve the
owner (the source tests the truthiness of the player number, so number 0 is
rejected), add one FACEDOWN unit and bump the owner ledger.  No rank is removed
from the deck. -/
def faceDownOwnerKey (s : GameState) (to_zone : String) : Option String :=
  if pyLower to_zone = "dealer" then some "dealer"
  else
    match s.get_player_zone to_zone with
    | some nz => if nz.1 = 0 then none else some ("player" ++ intRepr nz.1)
    | none => none

def deal_face_down (s : GameState) (to_zone : String) : GameState × Res :=
  if s.deck.total_cards + s.face_down.total_cards = 0 then (s, Res.noCards)
  else
    match faceDownOwnerKey s to_zone with
    | none => (s, Res.invalidTarget)
    | some key =>
      match PyDict.lookup key s.face_down_owners with
      | none =>
        ({ s with
            face_down := s.face_down.add_card "FACEDOWN" 1
            face_down_owners := PyDict.set key 1 (s.face_down_owners ++ [(key, 0)]) }, Res.ok)
      | some v =>
        ({ s with
            face_down := s.face_down.add_card "FACEDOWN" 1
            face_down_owners := PyDict.set key (v + 1) s.face_down_owners }, Res.ok)

/-- A resolved flip or hit target: the dealer, or an existing player with the zone
that was looked up at resolution time (the source keeps an alias to that object). -/
inductive Target where
  | dealer
  | player (n : Int) (z : CardZone)

/-- Target resolution shared by deal_card, hit and flip_card in the source: the
lowered token must equal dealer, otherwise get_player_zone must succeed (a CardZone
object is always truthy in Python, so any resolved player passes). -/
def resolveWho (s : GameState) (who : String) : Option Target :=
  if pyLower who = "dealer" then some Target.dealer
  else
    match s.get_player_zone who with
    | some nz => some (Target.player nz.1 nz.2)
    | none => none

/-- Adding a card to the resolved target zone models the in-place mutation of the
aliased zone object: the player entry is written back under its key.  The fallback
branch is unreachable because the players dict is unchanged between resolution and
this write. -/
def addToTarget (s : GameState) (t : Target) (card : String) : GameState :=
  match t with
  | Target.dealer => { s with dealer_hand := s.dealer_hand.add_card card 1 }
  | Target.player n _ =>
    match PyDict.lookup n s.players with
    | some z => { s with players := PyDict.set n (z.add_card card 1) s.players }
    | none => s

/-- The owner-ledger key of a resolved target. -/
def ownerKey : Target → String
  | Target.dealer => "dealer"
  | Target.player n _ => "player" ++ intRepr n

/-- flip_card: resolve the owner, require an outstanding face-down count, remove
the named rank from the deck, then remove one FACEDOWN unit (result ignored by the
source), decrement the owner ledger deleting the key at zero, and add the rank to
the owner hand. -/
def flip_card (s : GameState) (who card : String) : GameState × Res :=
  match s.resolveWho who with
  | none => (s, Res.invalidTarget)
  | some t =>
    match PyDict.lookup (ownerKey t) s.face_down_owners with
    | none => (s, Res.noFaceDown)
    | some v =>
      if v = 0 then (s, Res.noFaceDown)
      else if (s.deck.remove_card (normCard card) 1).1 = false then
        ({ s with deck := (s.deck.remove_card (normCard card) 1).2 }, Res.cardUnavailable)
      else
        (addToTarget
          { s with
            deck := (s.deck.remove_card (normCard card) 1).2
            face_down := (s.face_down.remove_card "FACEDOWN" 1).2
            face_down_owners :=
              if v - 1 = 0 then
                PyDict.erase (ownerKey t) (PyDict.set (ownerKey t) (v - 1) s.face_down_owners)
              else PyDict.set (ownerKey t) (v - 1) s.face_down_owners }
          t (normCard card), Res.ok)

/-- hit: same transfer as deal_card (only the message strings differ). -/
def hit (s : GameState) (card who : String) : GameState × Res :=
  if (s.deck.remove_card (normCard card) 1).1 = false then
    ({ s with deck := (s.deck.remove_card (normCard card) 1).2 }, Res.cardUnavailable)
  else if pyLower who = "dealer" then
    ({ s with
        deck := (s.deck.remove_card (normCard card) 1).2
        dealer_hand := s.dealer_hand.add_card (normCard card) 1 }, Res.ok)
  else
    match s.get_player_zone who with
    | some nz =>
      ({ s with
          deck := (s.deck.remove_card (normCard card) 1).2
          players := PyDict.set nz.1 (nz.2.add_card (normCard card) 1) s.players }, Res.ok)
    | none =>
      ({ s with
          deck := ((s.deck.remove_card (normCard card) 1).2).add_card (normCard card) 1 },
        Res.invalidTarget)

/-- Fold the add_card loops the source runs when moving a drained card list into
the discard pile. -/
def addAll (z : CardZone) (cs : List String) : CardZone :=
  cs.foldl (fun d c => d.add_card c 1) z

/-- clear_hands: drain every player hand and the dealer hand into discard, turn
each outstanding face-down unit into one UNKNOWN unit in discard, and clear the
owner ledger.  Players and their numbers are kept. -/
def clear_hands (s : GameState) : GameState :=
  if 0 < s.face_down.total_cards then
    { s with
      players := s.players.map (fun (p : Int × CardZone) => (p.1, (p.2.clear).2))
      dealer_hand := (s.dealer_hand.clear).2
      face_down := (s.face_down.clear).2
      discard := addAll (addAll (addAll s.discard
          ((s.players.map (fun (p : Int × CardZone) => (p.2.clear).1)).flatten))
          ((s.dealer_hand.clear).1))
        (List.replicate s.face_down.total_cards "UNKNOWN")
      face_down_owners := [] }
  else
    { s with
      players := s.players.map (fun (p : Int × CardZone) => (p.1, (p.2.clear).2))
      dealer_hand := (s.dealer_hand.clear).2
      discard := addAll (addAll s.discard
          ((s.players.map (fun (p : Int × CardZone) => (p.2.clear).1)).flatten))
        ((s.dealer_hand.clear).1)
      face_down_owners := [] }

/-- shuffle: drain every zone, clear the owner ledger and the player mapping,
reset the counter to 1 and reinitialize the deck. -/
def shuffle (s : GameState) : GameState :=
  let s1 := { s with players := s.players.map (fun (p : Int × CardZone) => (p.1, (p.2.clear).2)) }
  let s2 := { s1 with
    dealer_hand := (s1.dealer_hand.clear).2
    discard := (s1.discard.clear).2
    face_down := (s1.face_down.clear).2
    face_down_owners := []
    players := []
    next_player_number := 1 }
  s2.init_deck

end GameState

/-- The record produced by GameState.to_dict. -/
structure GameStateDict where
  deck : CardZoneDict
  dealer_hand : CardZoneDict
  discard : CardZoneDict
  face_down : CardZoneDict
  face_down_owners : List (String × Nat)
  players : List (Int × CardZoneDict)
  next_player_number : Int
deriving DecidableEq

/-- GameState.to_dict: serialize every component. -/
def GameState.to_dict (s : GameState) : GameStateDict :=
  { deck := s.deck.to_dict
    dealer_hand := s.dealer_hand.to_dict
    discard := s.discard.to_dict
    face_down := s.face_down.to_dict
    face_down_owners := s.face_down_owners
    players := s.players.map (fun p => (p.1, p.2.to_dict))
    next_player_number := s.next_player_number }

/-- GameState.from_dict: build a fresh state and overwrite every field from the
record; int(num) applied to the integer player keys is the identity. -/
def GameState.from_dict (d : GameStateDict) : GameState :=
  { deck := CardZone.from_dict d.deck
    dealer_hand := CardZone.from_dict d.dealer_hand
    discard := CardZone.from_dict d.discard
    face_down := CardZone.from_dict d.face_down
    face_down_owners := d.face_down_owners
    players := d.players.map (fun p => (p.1, CardZone.from_dict p.2))
    next_player_number := d.next_player_number }

/-- The accumulation loop of calculate_hand_total: J, Q, K add ten, an ace adds a
provisional eleven and is counted, any other label goes through int() which can
raise (modelled by none). -/
def handLoop : List String → Int → Nat → Option (Int × Nat)
  | [], total, aces => some (total, aces)
  | card :: rest, total, aces =>
    let c := normCard card
    if c = "J" ∨ c = "Q" ∨ c = "K" then handLoop rest (total + 10) aces
    else if c = "A" then handLoop rest (total + 11) (aces + 1)
    else
      match pyInt c with
      | some v => handLoop rest (total + v) aces
      | none => none

/-- The ace adjustment while loop: while the total exceeds 21 and an ace is still
counted as eleven, subtract ten and give up one ace. -/
def acesAdjust : Nat → Int → Int
  | 0, total => total
  | a + 1, total => if 21 < total then acesAdjust a (total - 10) else total

/-- calculate_hand_total from the source (the method ignores self); none models a
ValueError escaping from int(). -/
def calculate_hand_total (cards : List String) : Option Int :=
  (handLoop cards 0 0).map (fun p => acesAdjust p.2 p.1)

/-- get_hand_cards: the dealer hand, the resolved player hand, or an empty list. -/
def GameState.get_hand_cards (s : GameState) (who : String) : List String :=
  if pyLower who = "dealer" then s.dealer_hand.get_all_cards
  else
    match s.get_player_zone who with
    | some nz => nz.2.get_all_cards
    | none => []

/-- Outcome of calculate_probability_after_hit, abstracting the report string: the
two error messages, a ValueError escaping from the totaling of a hypothetical
hand, or the three bucket counts together with the deck total. -/
inductive ProbOutcome where
  | emptyHand
  | deckExhausted
  | raised
  | result (greater less equal total : Nat)
deriving DecidableEq

/-- One step of the classification loop over the deck entries. -/
def classifyStep (hand : List String) (threshold : Int)
    (acc : Option (Nat × Nat × Nat)) (p : String × Nat) : Option (Nat × Nat × Nat) :=
  match acc with
  | none => none
  | some (g, l, e) =>
    match calculate_hand_total (hand ++ [p.1]) with
    | none => none
    | some t =>
      if threshold < t then some (g + p.2, l, e)
      else if t < threshold then some (g, l + p.2, e)
      else some (g, l, e + p.2)

/-- calculate_probability_after_hit: empty-hand check, totaling of the current hand
(which can raise), the deck-exhausted check on a copy of the deck dict, then one
pass over the deck entries classifying each hypothetical total against the
threshold and accumulating that count.  The method performs no state writes. -/
def GameState.calculate_probability_after_hit (s : GameState) (who : String)
    (threshold : Int) : ProbOutcome :=
  if s.get_hand_cards who = [] then ProbOutcome.emptyHand
  else
    match calculate_hand_total (s.get_hand_cards who) with
    | none => ProbOutcome.raised
    | some _ =>
      if PyDict.sumVals s.deck.cards = 0 then ProbOutcome.deckExhausted
      else
        match s.deck.cards.foldl (classifyStep (s.get_hand_cards who) threshold) (some (0, 0, 0)) with
        | none => ProbOutcome.raised
        | some gle => ProbOutcome.result gle.1 gle.2.1 gle.2.2 (PyDict.sumVals s.deck.cards)

/-- One state-mutating operation of the engine, with arbitrary string arguments.
The probability query performs no writes, so it is not a step. -/
inductive Step : GameState → GameState → Prop where
  | add_player (s : GameState) : Step s s.add_player
  | deal (s : GameState) (card to_zone : String) : Step s (s.deal_card card to_zone).1
  | deal_face_down (s : GameState) (to_zone : String) : Step s (s.deal_face_down to_zone).1
  | flip (s : GameState) (who card : String) : Step s (s.flip_card who card).1
  | hit (s : GameState) (card who : String) : Step s (s.hit card who).1
  | clear_hands (s : GameState) : Step s s.clear_hands
  | shuffle (s : GameState) : Step s s.shuffle

/-- States reachable from a fresh GameState by engine operations. -/
inductive Reachable : GameState → Prop where
  | init : Reachable GameState.new
  | step {s t : GameState} : Reachable s → Step s t → Reachable t


namespace PyDict

theorem lookup_eq_none_iff {α β : Type} [DecidableEq α] (k : α) (l : List (α × β)) :
    lookup k l = none ↔ ∀ p ∈ l, p.1 ≠ k := by
  induction l with
  | nil => simp [lookup]
  | cons p t ih =>
    by_cases h : p.1 = k
    · simp [lookup, h]
    · simp [lookup, h, ih]

theorem mem_of_lookup {α β : Type} [DecidableEq α] {k : α} {v : β} {l : List (α × β)}
    (h : lookup k l = some v) : (k, v) ∈ l := by
  induction l with
  | nil => simp [lookup] at h
  | cons p t ih =>
    by_cases hk : p.1 = k
    · simp only [lookup, hk, if_pos] at h
      obtain rfl : p.2 = v := by injection h
      subst hk
      exact List.mem_cons_self p t
    · simp only [lookup, hk, reduceIte] at h
      exact List.mem_cons_of_mem _ (ih h)

theorem lookup_append_left {α β : Type} [DecidableEq α] {k : α} {v : β} {l l2 : List (α × β)}
    (h : lookup k l = some v) : lookup k (l ++ l2) = some v := by
  induction l with
  | nil => simp [lookup] at h
  | cons p t ih =>
    by_cases hk : p.1 = k
    · simp_all [lookup]
    · simp_all [lookup]

theorem lookup_append_right {α β : Type} [DecidableEq α] {k : α} {l l2 : List (α × β)}
    (h : lookup k l = none) : lookup k (l ++ l2) = lookup k l2 := by
  induction l with
  | nil => simp [lookup]
  | cons p t ih =>
    by_cases hk : p.1 = k
    · simp [lookup, hk] at h
    · simp_all [lookup]

theorem lookup_set_self {α β : Type} [DecidableEq α] (k : α) (v : β) (l : List (α × β)) :
    lookup k (set k v l) = some v := by
  induction l with
  | nil => simp [set, lookup]
  | cons p t ih =>
    by_cases hk : p.1 = k
    · simp [set, hk, lookup]
    · simp [set, hk, lookup, ih]

theorem lookup_set_ne {α β : Type} [DecidableEq α] {r k : α} (v : β) (l : List (α × β))
    (h : r ≠ k) : lookup r (set k v l) = lookup r l := by
  have hkr : ¬ (k = r) := fun e => h e.symm
  induction l with
  | nil =>
    show (if k = r then some v else lookup r []) = lookup r []
    rw [if_neg hkr]
  | cons p t ih =>
    by_cases hk : p.1 = k
    · rw [show set k v (p :: t) = (k, v) :: t by simp [set, hk]]
      show (if k = r then some v else lookup r t) = if p.1 = r then some p.2 else lookup r t
      rw [if_neg hkr, if_neg (by rw [hk]; exact hkr)]
    · rw [show set k v (p :: t) = p :: set k v t by simp [set, hk]]
      show (if p.1 = r then some p.2 else lookup r (set k v t))
          = if p.1 = r then some p.2 else lookup r t
      rw [ih]

theorem set_eq_append {α β : Type} [DecidableEq α] {k : α} (v : β) {l : List (α × β)}
    (h : lookup k l = none) : set k v l = l ++ [(k, v)] := by
  induction l with
  | nil => simp [set]
  | cons p t ih =>
    by_cases hk : p.1 = k
    · simp [lookup, hk] at h
    · simp only [lookup, hk, reduceIte] at h
      simp [set, hk, ih h]

theorem keys_set_of_lookup {α β : Type} [DecidableEq α] {k : α} (v : β) {l : List (α × β)}
    {w : β} (hl : lookup k l = some w) : keys (set k v l) = keys l := by
  induction l with
  | nil => simp [lookup] at hl
  | cons p t ih =>
    by_cases hk : p.1 = k
    · simp [set, hk, keys]
    · simp only [lookup, hk, reduceIte] at hl
      simp only [set, hk, reduceIte, keys, List.map_cons]
      exact congrArg (List.cons p.1) (by simpa [keys] using ih hl)

theorem mem_set {α β : Type} [DecidableEq α] {k : α} {v : β} {l : List (α × β)} {p : α × β}
    (h : p ∈ set k v l) : p ∈ l ∨ p = (k, v) := by
  induction l with
  | nil =>
    simp [set] at h
    simp [h]
  | cons q t ih =>
    by_cases hk : q.1 = k
    · simp only [set, hk, reduceIte, List.mem_cons] at h
      rcases h with h | h
      · right; exact h
      · left; exact List.mem_cons_of_mem _ h
    · simp only [set, hk, reduceIte, List.mem_cons] at h
      rcases h with h | h
      · left; simp [h]
      · rcases ih h with h2 | h2
        · left; exact List.mem_cons_of_mem _ h2
        · right; exact h2

theorem mem_erase {α β : Type} [DecidableEq α] {k : α} {l : List (α × β)} {p : α × β}
    (h : p ∈ erase k l) : p ∈ l := by
  induction l with
  | nil => simp [erase] at h
  | cons q t ih =>
    by_cases hk : q.1 = k
    · simp only [erase, hk, reduceIte] at h
      exact List.mem_cons_of_mem _ h
    · simp only [erase, hk, reduceIte, List.mem_cons] at h
      rcases h with h | h
      · simp [h]
      · exact List.mem_cons_of_mem _ (ih h)

theorem lookup_erase_ne {α β : Type} [DecidableEq α] {r k : α} (l : List (α × β))
    (h : r ≠ k) : lookup r (erase k l) = lookup r l := by
  induction l with
  | nil => simp [erase]
  | cons p t ih =>
    by_cases hk : p.1 = k
    · rw [show erase k (p :: t) = t by simp [erase, hk]]
      show lookup r t = if p.1 = r then some p.2 else lookup r t
      rw [if_neg (by rw [hk]; exact fun e => h e.symm)]
    · rw [show erase k (p :: t) = p :: erase k t by simp [erase, hk]]
      show (if p.1 = r then some p.2 else lookup r (erase k t))
          = if p.1 = r then some p.2 else lookup r t
      rw [ih]

theorem erase_sublist {α β : Type} [DecidableEq α] (k : α) (l : List (α × β)) :
    List.Sublist (erase k l) l := by
  induction l with
  | nil => simp [erase]
  | cons p t ih =>
    by_cases hk : p.1 = k
    · simp only [erase, hk, reduceIte]
      exact List.sublist_cons_self p t
    · simp only [erase, hk, reduceIte]
      exact List.Sublist.cons₂ p ih

theorem lookup_erase_self {α β : Type} [DecidableEq α] {k : α} {l : List (α × β)}
    (h : (keys l).Nodup) : lookup k (erase k l) = none := by
  induction l with
  | nil => simp [erase, lookup]
  | cons p t ih =>
    simp only [keys, List.map_cons, List.nodup_cons] at h
    by_cases hk : p.1 = k
    · simp only [erase, hk, reduceIte]
      rw [lookup_eq_none_iff]
      intro q hq hqk
      apply h.1
      have : q.1 = p.1 := by rw [hqk, hk]
      rw [← this]
      exact List.mem_map_of_mem Prod.fst hq
    · simp only [erase, hk, reduceIte, lookup]
      exact ih h.2

theorem nodup_keys_set {α β : Type} [DecidableEq α] (k : α) (v : β) {l : List (α × β)}
    (h : (keys l).Nodup) : (keys (set k v l)).Nodup := by
  cases hl : lookup k l with
  | some w =>
    rw [keys_set_of_lookup v hl]
    exact h
  | none =>
    rw [set_eq_append v hl]
    have hk : k ∉ keys l := by
      rw [lookup_eq_none_iff] at hl
      intro hmem
      simp only [keys, List.mem_map] at hmem
      obtain ⟨p, hp, hpk⟩ := hmem
      exact hl p hp hpk
    simp only [keys, List.map_append, List.map_cons, List.map_nil]
    rw [List.nodup_append]
    refine ⟨h, List.nodup_singleton k, ?_⟩
    intro a ha hb
    simp only [List.mem_singleton] at hb
    subst hb
    exact hk ha

theorem nodup_keys_erase {α β : Type} [DecidableEq α] (k : α) {l : List (α × β)}
    (h : (keys l).Nodup) : (keys (erase k l)).Nodup :=
  ((erase_sublist k l).map Prod.fst).nodup h

theorem sum_append {α : Type} (l l2 : List (α × Nat)) :
    sumVals (l ++ l2) = sumVals l + sumVals l2 := by
  simp [sumVals]

theorem sum_set {α : Type} [DecidableEq α] (k : α) (v : Nat) (l : List (α × Nat)) :
    sumVals (set k v l) + getD k l = sumVals l + v := by
  induction l with
  | nil => simp [set, sumVals, getD, lookup]
  | cons p t ih =>
    by_cases hk : p.1 = k
    · simp only [set, hk, reduceIte, sumVals, List.map_cons, List.sum_cons, getD, lookup,
        Option.getD_some]
      omega
    · simp only [set, hk, reduceIte, sumVals, List.map_cons, List.sum_cons, getD, lookup]
      simp only [sumVals, getD] at ih
      omega

theorem sum_erase {α : Type} [DecidableEq α] (k : α) (l : List (α × Nat)) :
    sumVals (erase k l) + getD k l = sumVals l := by
  induction l with
  | nil => simp [erase, sumVals, getD, lookup]
  | cons p t ih =>
    by_cases hk : p.1 = k
    · simp only [erase, hk, reduceIte, sumVals, List.map_cons, List.sum_cons, getD, lookup,
        Option.getD_some]
      omega
    · simp only [erase, hk, reduceIte, sumVals, List.map_cons, List.sum_cons, getD, lookup]
      simp only [sumVals, getD] at ih
      omega

theorem le_sum_of_lookup {α : Type} [DecidableEq α] {k : α} {v : Nat} {l : List (α × Nat)}
    (h : lookup k l = some v) : v ≤ sumVals l := by
  have hm := mem_of_lookup h
  have h2 : Prod.snd (k, v) ≤ (l.map Prod.snd).sum :=
    List.single_le_sum (fun x _ => Nat.zero_le x) _ (List.mem_map_of_mem Prod.snd hm)
  simpa [sumVals] using h2

theorem getD_append_zero {α : Type} [DecidableEq α] {k : α} {l : List (α × Nat)} (c : α) :
    getD k (l ++ [(c, 0)]) = getD k l := by
  cases hl : lookup k l with
  | some w => simp [getD, lookup_append_left hl, hl]
  | none =>
    rw [getD, lookup_append_right hl]
    by_cases hk : c = k
    · simp [lookup, hk, getD, hl]
    · simp [lookup, hk, getD, hl]

theorem sum_append_zero {α : Type} (l : List (α × Nat)) (c : α) :
    sumVals (l ++ [(c, 0)]) = sumVals l := by
  simp [sumVals]

theorem getD_set_self {α : Type} [DecidableEq α] (k : α) (v : Nat) (l : List (α × Nat)) :
    getD k (set k v l) = v := by
  simp [getD, lookup_set_self]

theorem getD_set_ne {α : Type} [DecidableEq α] {r k : α} (v : Nat) (l : List (α × Nat))
    (h : r ≠ k) : getD r (set k v l) = getD r l := by
  simp [getD, lookup_set_ne v l h]

theorem getD_erase_ne {α : Type} [DecidableEq α] {r k : α} (l : List (α × Nat))
    (h : r ≠ k) : getD r (erase k l) = getD r l := by
  simp [getD, lookup_erase_ne l h]

end PyDict


namespace PyDict

theorem set_append_self {α β : Type} [DecidableEq α] {k : α} (v w : β) {l : List (α × β)}
    (h : lookup k l = none) : set k v (l ++ [(k, w)]) = l ++ [(k, v)] := by
  induction l with
  | nil => simp [set]
  | cons p t ih =>
    by_cases hk : p.1 = k
    · simp [lookup, hk] at h
    · simp only [lookup, hk, reduceIte] at h
      simp [set, hk, ih h]

theorem readD_fst (k : String) (l : List (String × Nat)) : (readD k l).1 = getD k l := by
  cases hl : lookup k l with
  | some v => simp [readD, hl, getD]
  | none => simp [readD, hl, getD]

theorem getD_pos_lookup {k : String} {l : List (String × Nat)} (h : 0 < getD k l) :
    lookup k l = some (getD k l) := by
  cases hl : lookup k l with
  | some v => simp [getD, hl]
  | none => simp [getD, hl] at h

end PyDict

namespace CardZone

theorem add_cards (z : CardZone) (card : String) (n : Nat) :
    (z.add_card card n).cards
      = PyDict.set (normCard card) (PyDict.getD (normCard card) z.cards + n) z.cards := by
  unfold add_card
  cases hl : PyDict.lookup (normCard card) z.cards with
  | some v =>
    simp only [PyDict.readD, hl, PyDict.getD, Option.getD_some]
  | none =>
    simp only [PyDict.readD, hl, PyDict.getD, Option.getD_none]
    rw [PyDict.set_append_self _ _ hl, PyDict.set_eq_append _ hl]

theorem add_name (z : CardZone) (card : String) (n : Nat) :
    (z.add_card card n).name = z.name := by
  unfold add_card
  rfl

theorem add_total (z : CardZone) (card : String) (n : Nat) :
    (z.add_card card n).total_cards = z.total_cards + n := by
  have h := PyDict.sum_set (normCard card) (PyDict.getD (normCard card) z.cards + n) z.cards
  simp only [total_cards, add_cards]
  omega

theorem add_getD_self (z : CardZone) (card : String) (n : Nat) :
    PyDict.getD (normCard card) (z.add_card card n).cards
      = PyDict.getD (normCard card) z.cards + n := by
  rw [add_cards, PyDict.getD_set_self]

theorem add_getD_ne (z : CardZone) (card : String) (n : Nat) {r : String}
    (h : r ≠ normCard card) :
    PyDict.getD r (z.add_card card n).cards = PyDict.getD r z.cards := by
  rw [add_cards, PyDict.getD_set_ne _ _ h]

theorem add_mem {z : CardZone} {card : String} {n : Nat} {p : String × Nat}
    (h : p ∈ (z.add_card card n).cards) :
    p ∈ z.cards ∨ p = (normCard card, PyDict.getD (normCard card) z.cards + n) := by
  rw [add_cards] at h
  exact PyDict.mem_set h

theorem add_nodup {z : CardZone} (card : String) (n : Nat)
    (h : (PyDict.keys z.cards).Nodup) : (PyDict.keys (z.add_card card n).cards).Nodup := by
  rw [add_cards]
  exact PyDict.nodup_keys_set _ _ h

theorem remove_fst_true_iff (z : CardZone) (card : String) (n : Nat) :
    (z.remove_card card n).1 = true ↔ n ≤ PyDict.getD (normCard card) z.cards := by
  unfold remove_card
  rw [show ∀ b : Bool × CardZone, b.1 = b.1 from fun _ => rfl]
  by_cases h : n ≤ PyDict.getD (normCard card) z.cards
  · rw [← PyDict.readD_fst (normCard card) z.cards] at h
    simp only [h, reduceIte]
    rw [PyDict.readD_fst] at h
    simp [h]
  · rw [show ¬ n ≤ PyDict.getD (normCard card) z.cards
        ↔ ¬ n ≤ (PyDict.readD (normCard card) z.cards).1 by rw [PyDict.readD_fst]] at h
    simp only [h, reduceIte]
    rw [PyDict.readD_fst] at h
    simp [h]

theorem remove_name (z : CardZone) (card : String) (n : Nat) :
    (z.remove_card card n).2.name = z.name := by
  unfold remove_card
  simp only []
  split
  · rfl
  · rfl

theorem remove_cards_success {z : CardZone} {card : String} {n : Nat}
    (h1 : 1 ≤ n) (hs : n ≤ PyDict.getD (normCard card) z.cards) :
    (z.remove_card card n).2.cards
      = (if PyDict.getD (normCard card) z.cards - n = 0 then
          PyDict.erase (normCard card)
            (PyDict.set (normCard card) (PyDict.getD (normCard card) z.cards - n) z.cards)
        else
          PyDict.set (normCard card) (PyDict.getD (normCard card) z.cards - n) z.cards) := by
  have hpos : 0 < PyDict.getD (normCard card) z.cards := lt_of_lt_of_le h1 hs
  have hl := PyDict.getD_pos_lookup hpos
  unfold remove_card
  simp only [PyDict.readD, hl]
  simp only [hs, reduceIte]

theorem remove_getD_self {z : CardZone} {card : String} {n : Nat}
    (h1 : 1 ≤ n) (hs : n ≤ PyDict.getD (normCard card) z.cards)
    (hnd : (PyDict.keys z.cards).Nodup) :
    PyDict.getD (normCard card) (z.remove_card card n).2.cards
      = PyDict.getD (normCard card) z.cards - n := by
  rw [remove_cards_success h1 hs]
  by_cases h2 : PyDict.getD (normCard card) z.cards - n = 0
  · simp only [h2, reduceIte]
    have hnone : PyDict.lookup (normCard card)
        (PyDict.erase (normCard card)
          (PyDict.set (normCard card) (PyDict.getD (normCard card) z.cards - n) z.cards))
        = none :=
      PyDict.lookup_erase_self (PyDict.nodup_keys_set _ _ hnd)
    rw [h2] at hnone
    simp [PyDict.getD, hnone, h2]
  · simp only [h2, reduceIte]
    rw [PyDict.getD_set_self]

theorem remove_getD_ne {z : CardZone} (card : String) {n : Nat} (h1 : 1 ≤ n) {r : String}
    (h : r ≠ normCard card) :
    PyDict.getD r (z.remove_card card n).2.cards = PyDict.getD r z.cards := by
  unfold remove_card
  cases hl : PyDict.lookup (normCard card) z.cards with
  | some v =>
    simp only [PyDict.readD, hl]
    by_cases hn : n ≤ v
    · simp only [hn, reduceIte]
      by_cases h2 : v - n = 0
      · simp only [h2, reduceIte]
        rw [PyDict.getD_erase_ne _ h, PyDict.getD_set_ne _ _ h]
      · simp only [h2, reduceIte]
        rw [PyDict.getD_set_ne _ _ h]
    · simp [hn]
  | none =>
    simp only [PyDict.readD, hl]
    have hn : ¬ (n ≤ 0) := by omega
    simp only [hn, reduceIte]
    rw [PyDict.getD_append_zero]

end CardZone


namespace PyDict

/-- Sum of a function of the values of a dict. -/
def sumF {β : Type} (f : β → Nat) (l : List (Int × β)) : Nat :=
  (l.map (fun p => f p.2)).sum

theorem sumF_set {β : Type} (f : β → Nat) {k : Int} {b : β} {l : List (Int × β)} (b2 : β)
    (h : lookup k l = some b) : sumF f (set k b2 l) + f b = sumF f l + f b2 := by
  induction l with
  | nil => simp [lookup] at h
  | cons p t ih =>
    by_cases hk : p.1 = k
    · simp only [lookup, hk, if_pos] at h
      obtain rfl : p.2 = b := by injection h
      simp only [set, hk, reduceIte, sumF, List.map_cons, List.sum_cons]
      omega
    · simp only [lookup, hk, reduceIte] at h
      simp only [set, hk, reduceIte, sumF, List.map_cons, List.sum_cons]
      simp only [sumF] at ih
      have := ih h
      omega

theorem sumF_append {β : Type} (f : β → Nat) (l l2 : List (Int × β)) :
    sumF f (l ++ l2) = sumF f l + sumF f l2 := by
  simp [sumF]

end PyDict

namespace CardZone

theorem remove_total_success {z : CardZone} {card : String} {n : Nat}
    (h1 : 1 ≤ n) (hs : n ≤ PyDict.getD (normCard card) z.cards) :
    (z.remove_card card n).2.total_cards + n = z.total_cards := by
  rw [total_cards, remove_cards_success h1 hs]
  by_cases h2 : PyDict.getD (normCard card) z.cards - n = 0
  · simp only [h2, reduceIte]
    have he := PyDict.sum_erase (normCard card)
      (PyDict.set (normCard card) (PyDict.getD (normCard card) z.cards - n) z.cards)
    have hg := PyDict.getD_set_self (normCard card)
      (PyDict.getD (normCard card) z.cards - n) z.cards
    have hss := PyDict.sum_set (normCard card)
      (PyDict.getD (normCard card) z.cards - n) z.cards
    rw [h2] at he hg hss
    simp only [total_cards]
    omega
  · simp only [h2, reduceIte]
    have hss := PyDict.sum_set (normCard card)
      (PyDict.getD (normCard card) z.cards - n) z.cards
    simp only [total_cards]
    omega

theorem remove_fail {z : CardZone} {card : String} {n : Nat}
    (hf : ¬ n ≤ PyDict.getD (normCard card) z.cards) :
    (z.remove_card card n).1 = false ∧
      ((z.remove_card card n).2.cards = z.cards ∨
        (z.remove_card card n).2.cards = z.cards ++ [(normCard card, 0)]) := by
  unfold remove_card
  cases hl : PyDict.lookup (normCard card) z.cards with
  | some v =>
    have hv : PyDict.getD (normCard card) z.cards = v := by simp [PyDict.getD, hl]
    rw [hv] at hf
    simp only [PyDict.readD, hl]
    simp only [hf, reduceIte]
    simp
  | none =>
    have hv : PyDict.getD (normCard card) z.cards = 0 := by simp [PyDict.getD, hl]
    rw [hv] at hf
    simp only [PyDict.readD, hl]
    simp only [hf, reduceIte]
    simp

theorem remove_fail_total {z : CardZone} {card : String} {n : Nat}
    (hf : ¬ n ≤ PyDict.getD (normCard card) z.cards) :
    (z.remove_card card n).2.total_cards = z.total_cards := by
  rcases (remove_fail hf).2 with h | h
  · rw [total_cards, h]
    rfl
  · rw [total_cards, h, PyDict.sum_append_zero]
    rfl

theorem remove_fail_getD {z : CardZone} {card : String} {n : Nat}
    (hf : ¬ n ≤ PyDict.getD (normCard card) z.cards) (r : String) :
    PyDict.getD r (z.remove_card card n).2.cards = PyDict.getD r z.cards := by
  rcases (remove_fail hf).2 with h | h
  · rw [h]
  · rw [h, PyDict.getD_append_zero]

theorem remove_mem {z : CardZone} {card : String} {n : Nat} {p : String × Nat}
    (h1 : 1 ≤ n) (h : p ∈ (z.remove_card card n).2.cards) :
    p ∈ z.cards ∨ (p.1 = normCard card ∧
      (p.2 = PyDict.getD (normCard card) z.cards - n ∨ p.2 = 0)) := by
  by_cases hs : n ≤ PyDict.getD (normCard card) z.cards
  · rw [remove_cards_success h1 hs] at h
    by_cases h2 : PyDict.getD (normCard card) z.cards - n = 0
    · simp only [h2, reduceIte] at h
      rcases PyDict.mem_set (PyDict.mem_erase h) with hm | hm
      · exact Or.inl hm
      · right
        rw [hm]
        exact ⟨rfl, Or.inr rfl⟩
    · simp only [h2, reduceIte] at h
      rcases PyDict.mem_set h with hm | hm
      · exact Or.inl hm
      · right
        rw [hm]
        exact ⟨rfl, Or.inl rfl⟩
  · rcases (remove_fail hs).2 with hc | hc
    · rw [hc] at h
      exact Or.inl h
    · rw [hc] at h
      rcases List.mem_append.mp h with hm | hm
      · exact Or.inl hm
      · right
        simp only [List.mem_singleton] at hm
        rw [hm]
        exact ⟨rfl, Or.inr rfl⟩

theorem remove_nodup {z : CardZone} (card : String) {n : Nat} (h1 : 1 ≤ n)
    (hnd : (PyDict.keys z.cards).Nodup) :
    (PyDict.keys (z.remove_card card n).2.cards).Nodup := by
  unfold remove_card
  cases hl : PyDict.lookup (normCard card) z.cards with
  | some v =>
    simp only [PyDict.readD, hl]
    by_cases hn : n ≤ v
    · simp only [hn, reduceIte]
      by_cases h2 : v - n = 0
      · simp only [h2, reduceIte]
        exact PyDict.nodup_keys_erase _ (PyDict.nodup_keys_set _ _ hnd)
      · simp only [h2, reduceIte]
        exact PyDict.nodup_keys_set _ _ hnd
    · simp only [hn, reduceIte]
      exact hnd
  | none =>
    simp only [PyDict.readD, hl]
    have hn : ¬ (n ≤ 0) := by omega
    simp only [hn, reduceIte]
    rw [← PyDict.set_eq_append 0 hl]
    exact PyDict.nodup_keys_set _ _ hnd

theorem length_get_all (z : CardZone) : z.get_all_cards.length = z.total_cards := by
  simp only [get_all_cards, total_cards, PyDict.sumVals, List.length_flatten, List.map_map]
  congr 1
  apply List.map_congr_left
  intro p _
  simp

theorem mem_get_all {z : CardZone} {x : String} (h : x ∈ z.get_all_cards) :
    ∃ p, p ∈ z.cards ∧ p.1 = x ∧ 0 < p.2 := by
  simp only [get_all_cards, List.mem_flatten, List.mem_map] at h
  obtain ⟨l, ⟨p, hp, hl⟩, hx⟩ := h
  rw [← hl, List.mem_replicate] at hx
  exact ⟨p, hp, hx.2.symm, Nat.pos_of_ne_zero hx.1⟩

end CardZone


namespace GameState

theorem addAll_cons (z : CardZone) (c : String) (cs : List String) :
    addAll z (c :: cs) = addAll (z.add_card c 1) cs := rfl

theorem addAll_name (z : CardZone) (cs : List String) : (addAll z cs).name = z.name := by
  induction cs generalizing z with
  | nil => rfl
  | cons c t ih => rw [addAll_cons, ih, CardZone.add_name]

theorem addAll_total (z : CardZone) (cs : List String) :
    (addAll z cs).total_cards = z.total_cards + cs.length := by
  induction cs generalizing z with
  | nil => rfl
  | cons c t ih =>
    rw [addAll_cons, ih, CardZone.add_total, List.length_cons]
    omega

theorem addAll_getD_ne (z : CardZone) {cs : List String} {r : String}
    (h : ∀ c ∈ cs, normCard c ≠ r) :
    PyDict.getD r (addAll z cs).cards = PyDict.getD r z.cards := by
  induction cs generalizing z with
  | nil => rfl
  | cons c t ih =>
    have ht : ∀ x ∈ t, normCard x ≠ r := fun x hx => h x (List.mem_cons_of_mem _ hx)
    rw [addAll_cons, ih _ ht,
      CardZone.add_getD_ne _ _ _ (fun e => h c (List.mem_cons_self c t) e.symm)]

theorem addAll_replicate_getD (z : CardZone) (u : String) (m : Nat) :
    PyDict.getD (normCard u) (addAll z (List.replicate m u)).cards
      = PyDict.getD (normCard u) z.cards + m := by
  induction m generalizing z with
  | zero => rfl
  | succ k ih =>
    rw [List.replicate_succ, addAll_cons, ih, CardZone.add_getD_self]
    omega

theorem addAll_nodup (z : CardZone) (cs : List String)
    (h : (PyDict.keys z.cards).Nodup) : (PyDict.keys (addAll z cs).cards).Nodup := by
  induction cs generalizing z with
  | nil => exact h
  | cons c t ih => exact addAll_cons z c t ▸ ih _ (CardZone.add_nodup c 1 h)

/-- Sum of the totals of every player hand. -/
def playersTotal (s : GameState) : Nat :=
  PyDict.sumF CardZone.total_cards s.players

/-- The conservation sum over every zone the spec names. -/
def grand_total (s : GameState) : Nat :=
  s.deck.total_cards + s.dealer_hand.total_cards + s.discard.total_cards +
    s.face_down.total_cards + playersTotal s

/-- Well formed dict representations: every association list that models a Python
dict has pairwise distinct keys (Python dicts cannot carry duplicates). -/
def WF (s : GameState) : Prop :=
  (PyDict.keys s.deck.cards).Nodup ∧
  (PyDict.keys s.dealer_hand.cards).Nodup ∧
  (PyDict.keys s.discard.cards).Nodup ∧
  (PyDict.keys s.face_down.cards).Nodup ∧
  (PyDict.keys s.face_down_owners).Nodup ∧
  (PyDict.keys s.players).Nodup ∧
  ∀ p ∈ s.players, (PyDict.keys p.2.cards).Nodup

/-- The face-down zone only ever holds the FACEDOWN sentinel. -/
def FDShape (s : GameState) : Prop :=
  s.face_down.cards = [] ∨ ∃ n, s.face_down.cards = [("FACEDOWN", n)]

/-- A hand zone (dealer or player): every entry is a positive count of a real rank
(hands only ever receive add_card, never remove_card). -/
def HandOk (z : CardZone) : Prop :=
  ∀ p ∈ z.cards, p.1 ∈ rankList ∧ 0 < p.2

/-- The reachable-state invariant: well-formed dicts, the face-down zone shape, the
owner-ledger sum, rank-validity of deck entries with positive count and of all hand
entries, the corrected conservation equation, and the player-number bound. -/
def Inv (s : GameState) : Prop :=
  WF s ∧ FDShape s ∧
  PyDict.sumVals s.face_down_owners = s.face_down.total_cards ∧
  (∀ p ∈ s.deck.cards, 0 < p.2 → p.1 ∈ rankList) ∧
  HandOk s.dealer_hand ∧
  (∀ p ∈ s.players, HandOk p.2) ∧
  grand_total s = 52 + s.face_down.total_cards + PyDict.getD "UNKNOWN" s.discard.cards ∧
  ∀ p ∈ s.players, p.1 < s.next_player_number

end GameState


theorem normCard_rank : ∀ r ∈ rankList, normCard r = r := by decide

theorem rank_ne_unknown : ∀ r ∈ rankList, r ≠ "UNKNOWN" := by decide

theorem normCard_facedown : normCard "FACEDOWN" = "FACEDOWN" := by decide

theorem normCard_unknown : normCard "UNKNOWN" = "UNKNOWN" := by decide

/-- The full-deck composition produced by initialize_deck. -/
def deckFullCards : List (String × Nat) :=
  [("2", 4), ("3", 4), ("4", 4), ("5", 4), ("6", 4), ("7", 4), ("8", 4), ("9", 4),
   ("10", 4), ("J", 4), ("Q", 4), ("K", 4), ("A", 4)]

namespace GameState

theorem foldl_add_card (l : List String) (z : CardZone) :
    l.foldl (fun z c => z.add_card c 4) z
      = ⟨z.name, l.foldl
          (fun cs c => PyDict.set (normCard c) (PyDict.getD (normCard c) cs + 4) cs) z.cards⟩ := by
  induction l generalizing z with
  | nil => rfl
  | cons c t ih =>
    rw [List.foldl_cons, ih, CardZone.add_name, CardZone.add_cards, List.foldl_cons]

theorem init_deck_eq (s : GameState) :
    s.init_deck = { s with deck := ⟨s.deck.name, deckFullCards⟩ } := by
  show { s with deck := List.foldl (fun z c => z.add_card c 4) (⟨s.deck.name, []⟩ : CardZone) rankList }
      = { s with deck := ⟨s.deck.name, deckFullCards⟩ }
  rw [foldl_add_card]
  rw [show List.foldl
      (fun cs c => PyDict.set (normCard c) (PyDict.getD (normCard c) cs + 4) cs)
      ([] : List (String × Nat)) rankList = deckFullCards by decide]

theorem shuffle_eq (s : GameState) :
    s.shuffle =
      { deck := ⟨s.deck.name, deckFullCards⟩
        dealer_hand := ⟨s.dealer_hand.name, []⟩
        discard := ⟨s.discard.name, []⟩
        face_down := ⟨s.face_down.name, []⟩
        face_down_owners := []
        players := []
        next_player_number := 1 } := by
  unfold shuffle
  rw [init_deck_eq]
  rfl

theorem new_eq :
    GameState.new =
      { deck := ⟨"Deck", deckFullCards⟩
        dealer_hand := ⟨"Dealer Hand", []⟩
        discard := ⟨"Discard Pile", []⟩
        face_down := ⟨"Face Down", []⟩
        face_down_owners := []
        players := []
        next_player_number := 1 } := by
  unfold new
  rw [init_deck_eq]

theorem get_player_zone_lookup {s : GameState} {t : String} {nz : Int × CardZone}
    (h : s.get_player_zone t = some nz) : PyDict.lookup nz.1 s.players = some nz.2 := by
  unfold get_player_zone at h
  cases hi : pyInt (playerIdToken t) with
  | none => rw [hi] at h; exact absurd h (by simp)
  | some n =>
    rw [hi] at h
    have h2 : (match PyDict.lookup n s.players with
        | some z => some (n, z)
        | none => none) = some nz := h
    cases hl : PyDict.lookup n s.players with
    | none =>
      rw [hl] at h2
      exact absurd h2 (by simp)
    | some z =>
      rw [hl] at h2
      have h3 : some (n, z) = some nz := h2
      obtain rfl : (n, z) = nz := by injection h3
      exact hl

theorem hit_eq_deal (s : GameState) (card who : String) :
    s.hit card who = s.deal_card card who := rfl

end GameState


namespace GameState

theorem inv_reset (dn hn cn fn : String) :
    Inv { deck := ⟨dn, deckFullCards⟩, dealer_hand := ⟨hn, []⟩, discard := ⟨cn, []⟩,
          face_down := ⟨fn, []⟩, face_down_owners := [], players := [],
          next_player_number := 1 } := by
  refine ⟨⟨?_, ?_, ?_, ?_, ?_, ?_, ?_⟩, Or.inl rfl, rfl, ?_, ?_, ?_, rfl, ?_⟩
  · show (PyDict.keys deckFullCards).Nodup
    decide
  · show (PyDict.keys ([] : List (String × Nat))).Nodup
    decide
  · show (PyDict.keys ([] : List (String × Nat))).Nodup
    decide
  · show (PyDict.keys ([] : List (String × Nat))).Nodup
    decide
  · show (PyDict.keys ([] : List (String × Nat))).Nodup
    decide
  · show (PyDict.keys ([] : List (Int × CardZone))).Nodup
    decide
  · intro p hp
    exact absurd hp (List.not_mem_nil p)
  · show ∀ p ∈ deckFullCards, 0 < p.2 → p.1 ∈ rankList
    decide
  · intro p hp
    exact absurd hp (List.not_mem_nil p)
  · intro p hp
    exact absurd hp (List.not_mem_nil p)
  · intro p hp
    exact absurd hp (List.not_mem_nil p)

theorem inv_new : Inv GameState.new := by
  rw [new_eq]
  exact inv_reset "Deck" "Dealer Hand" "Discard Pile" "Face Down"

theorem inv_shuffle (s : GameState) : Inv s.shuffle := by
  rw [shuffle_eq]
  exact inv_reset s.deck.name s.dealer_hand.name s.discard.name s.face_down.name

theorem lookup_next_none {s : GameState}
    (hb : ∀ p ∈ s.players, p.1 < s.next_player_number) :
    PyDict.lookup s.next_player_number s.players = none := by
  rw [PyDict.lookup_eq_none_iff]
  intro p hp e
  exact absurd (e ▸ hb p hp) (lt_irrefl _)

theorem inv_add_player {s : GameState} (h : Inv s) : Inv s.add_player := by
  obtain ⟨⟨w1, w2, w3, w4, w5, w6, w7⟩, hfd, hsum, hdeck, hdealer, hplayers, hgrand, hbound⟩ := h
  have hnone := lookup_next_none hbound
  have hset := PyDict.set_eq_append
    (⟨"Player " ++ intRepr s.next_player_number ++ " Hand", []⟩ : CardZone) hnone
  have hpt : playersTotal s.add_player = playersTotal s := by
    unfold playersTotal add_player
    simp only [hset, PyDict.sumF_append]
    simp [PyDict.sumF, CardZone.total_cards, PyDict.sumVals]
  refine ⟨⟨w1, w2, w3, w4, w5, ?_, ?_⟩, hfd, hsum, hdeck, hdealer, ?_, ?_, ?_⟩
  · exact PyDict.nodup_keys_set _ _ w6
  · intro p hp
    rcases PyDict.mem_set hp with hm | hm
    · exact w7 p hm
    · rw [hm]
      simp [PyDict.keys]
  · intro p hp
    rcases PyDict.mem_set hp with hm | hm
    · exact hplayers p hm
    · rw [hm]
      intro q hq
      simp at hq
  · show grand_total s.add_player = 52 + s.add_player.face_down.total_cards
        + PyDict.getD "UNKNOWN" s.add_player.discard.cards
    unfold grand_total
    rw [hpt]
    exact hgrand
  · intro p hp
    rcases PyDict.mem_set hp with hm | hm
    · have := hbound p hm
      show p.1 < s.next_player_number + 1
      omega
    · rw [hm]
      show s.next_player_number < s.next_player_number + 1
      omega

end GameState


namespace GameState

theorem fd_add_shape {z : CardZone} (hz : z.cards = [] ∨ ∃ n, z.cards = [("FACEDOWN", n)]) :
    (z.add_card "FACEDOWN" 1).cards = [("FACEDOWN", z.total_cards + 1)] := by
  rw [CardZone.add_cards, normCard_facedown]
  show PyDict.set "FACEDOWN" (PyDict.getD "FACEDOWN" z.cards + 1) z.cards
      = [("FACEDOWN", PyDict.sumVals z.cards + 1)]
  rcases hz with hz | ⟨n, hz⟩
  · rw [hz]
    rfl
  · rw [hz]
    simp [PyDict.set, PyDict.getD, PyDict.lookup, PyDict.sumVals]

/-- Common part of the two successful deal_face_down branches. -/
theorem inv_fd_update {s : GameState} (h : Inv s) (ow2 : List (String × Nat))
    (hsum2 : PyDict.sumVals ow2 = PyDict.sumVals s.face_down_owners + 1)
    (hnd2 : (PyDict.keys ow2).Nodup) :
    Inv { s with face_down := s.face_down.add_card "FACEDOWN" 1, face_down_owners := ow2 } := by
  obtain ⟨⟨w1, w2, w3, w4, w5, w6, w7⟩, hfd, hsum, hdeck, hdealer, hplayers, hgrand, hbound⟩ := h
  have hshape := fd_add_shape hfd
  have htot := CardZone.add_total s.face_down "FACEDOWN" 1
  refine ⟨⟨w1, w2, w3, ?_, hnd2, w6, w7⟩, ?_, ?_, hdeck, hdealer, hplayers, ?_, hbound⟩
  · show (PyDict.keys (s.face_down.add_card "FACEDOWN" 1).cards).Nodup
    rw [hshape]
    simp [PyDict.keys]
  · right
    exact ⟨s.face_down.total_cards + 1, hshape⟩
  · show PyDict.sumVals ow2 = (s.face_down.add_card "FACEDOWN" 1).total_cards
    rw [hsum2, htot, hsum]
  · show s.deck.total_cards + s.dealer_hand.total_cards + s.discard.total_cards
        + (s.face_down.add_card "FACEDOWN" 1).total_cards + playersTotal s
      = 52 + (s.face_down.add_card "FACEDOWN" 1).total_cards
        + PyDict.getD "UNKNOWN" s.discard.cards
    rw [htot]
    unfold grand_total at hgrand
    omega

theorem inv_deal_face_down {s : GameState} (h : Inv s) (tz : String) :
    Inv (s.deal_face_down tz).1 := by
  unfold deal_face_down
  by_cases h0 : s.deck.total_cards + s.face_down.total_cards = 0
  · rw [if_pos h0]
    exact h
  · rw [if_neg h0]
    split
    · exact h
    · rename_i key hk
      split
      · rename_i hl
        show Inv ⟨s.deck, s.dealer_hand, s.discard, s.face_down.add_card "FACEDOWN" 1,
          PyDict.set key 1 (s.face_down_owners ++ [(key, 0)]), s.players, s.next_player_number⟩
        have hap := PyDict.set_eq_append (0 : Nat) hl
        refine inv_fd_update h _ ?_ ?_
        · rw [← hap]
          have h1 := PyDict.sum_set key 1 (PyDict.set key 0 s.face_down_owners)
          have h2 := PyDict.sum_set key 0 s.face_down_owners
          have h3 : PyDict.getD key (PyDict.set key 0 s.face_down_owners) = 0 :=
            PyDict.getD_set_self key 0 s.face_down_owners
          have h4 : PyDict.getD key s.face_down_owners = 0 := by
            simp [PyDict.getD, hl]
          omega
        · rw [← hap]
          exact PyDict.nodup_keys_set _ _ (PyDict.nodup_keys_set _ _ (h.1.2.2.2.2.1))
      · rename_i v hl
        show Inv ⟨s.deck, s.dealer_hand, s.discard, s.face_down.add_card "FACEDOWN" 1,
          PyDict.set key (v + 1) s.face_down_owners, s.players, s.next_player_number⟩
        refine inv_fd_update h _ ?_ ?_
        · have h1 := PyDict.sum_set key (v + 1) s.face_down_owners
          have h2 : PyDict.getD key s.face_down_owners = v := by
            simp [PyDict.getD, hl]
          omega
        · exact PyDict.nodup_keys_set _ _ (h.1.2.2.2.2.1)

end GameState


namespace GameState

theorem inv_deal {s : GameState} (h : Inv s) (card tz : String) :
    Inv (s.deal_card card tz).1 := by
  obtain ⟨⟨w1, w2, w3, w4, w5, w6, w7⟩, hfd, hsum, hdeck, hdealer, hplayers, hgrand, hbound⟩ := h
  unfold deal_card
  unfold grand_total playersTotal at hgrand
  generalize normCard card = c0
  by_cases hb : (s.deck.remove_card c0 1).1 = false
  · rw [if_pos hb]
    have hf : ¬ 1 ≤ PyDict.getD (normCard c0) s.deck.cards := by
      intro hle
      have ht := (CardZone.remove_fst_true_iff s.deck c0 1).mpr hle
      rw [ht] at hb
      exact absurd hb (by simp)
    refine ⟨⟨CardZone.remove_nodup c0 le_rfl w1, w2, w3, w4, w5, w6, w7⟩,
      hfd, hsum, ?_, hdealer, hplayers, ?_, hbound⟩
    · intro p hp hpos
      rcases CardZone.remove_mem le_rfl hp with hm | ⟨hk, hv⟩
      · exact hdeck p hm hpos
      · rcases hv with hv | hv
        · omega
        · omega
    · have hft := CardZone.remove_fail_total hf
      show (s.deck.remove_card c0 1).2.total_cards + s.dealer_hand.total_cards
          + s.discard.total_cards + s.face_down.total_cards
          + PyDict.sumF CardZone.total_cards s.players
        = 52 + s.face_down.total_cards + PyDict.getD "UNKNOWN" s.discard.cards
      omega
  · rw [if_neg hb]
    have hs : 1 ≤ PyDict.getD (normCard c0) s.deck.cards := by
      rcases Nat.lt_or_ge (PyDict.getD (normCard c0) s.deck.cards) 1 with hlt | hge
      · exfalso
        apply hb
        cases hft : (s.deck.remove_card c0 1).1
        · rfl
        · exact absurd ((CardZone.remove_fst_true_iff s.deck c0 1).mp hft) (by omega)
      · exact hge
    have hcr : normCard c0 ∈ rankList :=
      hdeck _ (PyDict.mem_of_lookup (PyDict.getD_pos_lookup (lt_of_lt_of_le one_pos hs)))
        (lt_of_lt_of_le one_pos hs)
    have hdnd := CardZone.remove_nodup c0 le_rfl w1
    have hdt := CardZone.remove_total_success le_rfl hs
    have hdeck2 : ∀ p ∈ (s.deck.remove_card c0 1).2.cards,
        0 < p.2 → p.1 ∈ rankList := by
      intro p hp hpos
      rcases CardZone.remove_mem le_rfl hp with hm | ⟨hk, hv⟩
      · exact hdeck p hm hpos
      · rcases hv with hv | hv
        · rw [hk]
          exact hcr
        · omega
    by_cases hd : pyLower tz = "dealer"
    · rw [if_pos hd]
      refine ⟨⟨hdnd, CardZone.add_nodup _ 1 w2, w3, w4, w5, w6, w7⟩,
        hfd, hsum, hdeck2, ?_, hplayers, ?_, hbound⟩
      · intro p hp
        rcases CardZone.add_mem hp with hm | hm
        · exact hdealer p hm
        · rw [hm]
          exact ⟨hcr, by omega⟩
      · have hat := CardZone.add_total s.dealer_hand c0 1
        show (s.deck.remove_card c0 1).2.total_cards
            + (s.dealer_hand.add_card c0 1).total_cards
            + s.discard.total_cards + s.face_down.total_cards
            + PyDict.sumF CardZone.total_cards s.players
          = 52 + s.face_down.total_cards + PyDict.getD "UNKNOWN" s.discard.cards
        omega
    · rw [if_neg hd]
      split
      · rename_i nz hg
        have hlk := get_player_zone_lookup hg
        have hmem := PyDict.mem_of_lookup hlk
        refine ⟨⟨hdnd, w2, w3, w4, w5, PyDict.nodup_keys_set _ _ w6, ?_⟩,
          hfd, hsum, hdeck2, hdealer, ?_, ?_, ?_⟩
        · intro p hp
          rcases PyDict.mem_set hp with hm | hm
          · exact w7 p hm
          · rw [hm]
            exact CardZone.add_nodup _ 1 (w7 _ hmem)
        · intro p hp
          rcases PyDict.mem_set hp with hm | hm
          · exact hplayers p hm
          · rw [hm]
            intro q hq
            rcases CardZone.add_mem hq with hqm | hqm
            · exact hplayers _ hmem q hqm
            · rw [hqm]
              exact ⟨hcr, by omega⟩
        · have hps := PyDict.sumF_set CardZone.total_cards
            (nz.2.add_card c0 1) hlk
          have hat := CardZone.add_total nz.2 c0 1
          show (s.deck.remove_card c0 1).2.total_cards
              + s.dealer_hand.total_cards + s.discard.total_cards + s.face_down.total_cards
              + PyDict.sumF CardZone.total_cards
                  (PyDict.set nz.1 (nz.2.add_card c0 1) s.players)
            = 52 + s.face_down.total_cards + PyDict.getD "UNKNOWN" s.discard.cards
          omega
        · intro p hp
          rcases PyDict.mem_set hp with hm | hm
          · exact hbound p hm
          · rw [hm]
            exact hbound (nz.1, nz.2) hmem
      · rename_i hg
        refine ⟨⟨CardZone.add_nodup _ 1 hdnd, w2, w3, w4, w5, w6, w7⟩,
          hfd, hsum, ?_, hdealer, hplayers, ?_, hbound⟩
        · intro p hp hpos
          rcases CardZone.add_mem hp with hm | hm
          · exact hdeck2 p hm hpos
          · rw [hm]
            exact hcr
        · have hat := CardZone.add_total (s.deck.remove_card c0 1).2 c0 1
          show ((s.deck.remove_card c0 1).2.add_card c0 1).total_cards
              + s.dealer_hand.total_cards + s.discard.total_cards + s.face_down.total_cards
              + PyDict.sumF CardZone.total_cards s.players
            = 52 + s.face_down.total_cards + PyDict.getD "UNKNOWN" s.discard.cards
          omega

theorem inv_hit {s : GameState} (h : Inv s) (card who : String) :
    Inv (s.hit card who).1 := by
  rw [hit_eq_deal]
  exact inv_deal h card who

end GameState


namespace GameState

theorem fd_remove {z : CardZone} {m : Nat} (hz : z.cards = [("FACEDOWN", m)]) (hm : 1 ≤ m) :
    ((z.remove_card "FACEDOWN" 1).2.cards = [] ∨
      (z.remove_card "FACEDOWN" 1).2.cards = [("FACEDOWN", m - 1)]) ∧
    (z.remove_card "FACEDOWN" 1).2.total_cards = m - 1 := by
  have hg : PyDict.getD (normCard "FACEDOWN") z.cards = m := by
    rw [normCard_facedown, hz]
    simp [PyDict.getD, PyDict.lookup]
  have hs1 : 1 ≤ PyDict.getD (normCard "FACEDOWN") z.cards := by omega
  have htot := CardZone.remove_total_success le_rfl hs1
  have htz : z.total_cards = m := by
    rw [CardZone.total_cards, hz]
    simp [PyDict.sumVals]
  refine ⟨?_, by omega⟩
  rw [CardZone.remove_cards_success le_rfl hs1, hg, normCard_facedown, hz]
  by_cases h0 : m - 1 = 0
  · rw [if_pos h0]
    left
    simp [PyDict.set, PyDict.erase]
  · rw [if_neg h0]
    right
    simp [PyDict.set]

theorem addToTarget_dealer (s : GameState) (c : String) :
    s.addToTarget Target.dealer c
      = { s with dealer_hand := s.dealer_hand.add_card c 1 } := rfl

theorem addToTarget_player {s : GameState} {n : Int} {z0 z2 : CardZone} (c : String)
    (h : PyDict.lookup n s.players = some z2) :
    s.addToTarget (Target.player n z0) c
      = { s with players := PyDict.set n (z2.add_card c 1) s.players } := by
  show (match PyDict.lookup n s.players with
    | some z => { s with players := PyDict.set n (z.add_card c 1) s.players }
    | none => s) = _
  rw [h]

theorem resolveWho_player {s : GameState} {who : String} {n : Int} {z : CardZone}
    (h : s.resolveWho who = some (Target.player n z)) :
    PyDict.lookup n s.players = some z := by
  unfold resolveWho at h
  by_cases hd : pyLower who = "dealer"
  · rw [if_pos hd] at h
    injection h with h2
    exact Target.noConfusion h2
  · rw [if_neg hd] at h
    cases hg : s.get_player_zone who with
    | none =>
      rw [hg] at h
      exact absurd (show (none : Option Target) = some (Target.player n z) from h) (by simp)
    | some nz =>
      rw [hg] at h
      have h2 : some (Target.player nz.1 nz.2) = some (Target.player n z) := h
      injection h2 with h3
      injection h3 with hn hz
      rw [← hn, ← hz]
      exact get_player_zone_lookup hg

end GameState


namespace GameState

theorem inv_flip {s : GameState} (h : Inv s) (who card : String) :
    Inv (s.flip_card who card).1 := by
  unfold flip_card
  split
  · exact h
  · rename_i t hres
    split
    · exact h
    · rename_i v hl
      by_cases hv : v = 0
      · rw [if_pos hv]
        exact h
      · rw [if_neg hv]
        obtain ⟨⟨w1, w2, w3, w4, w5, w6, w7⟩, hfd, hsum, hdeck, hdealer, hplayers,
          hgrand, hbound⟩ := h
        unfold grand_total playersTotal at hgrand
        generalize normCard card = c0
        by_cases hb : (s.deck.remove_card c0 1).1 = false
        · rw [if_pos hb]
          have hf : ¬ 1 ≤ PyDict.getD (normCard c0) s.deck.cards := by
            intro hle
            have ht := (CardZone.remove_fst_true_iff s.deck c0 1).mpr hle
            rw [ht] at hb
            exact absurd hb (by simp)
          refine ⟨⟨CardZone.remove_nodup c0 le_rfl w1, w2, w3, w4, w5, w6, w7⟩,
            hfd, hsum, ?_, hdealer, hplayers, ?_, hbound⟩
          · intro p hp hpos
            rcases CardZone.remove_mem le_rfl hp with hm | ⟨hk, hv2⟩
            · exact hdeck p hm hpos
            · rcases hv2 with hv2 | hv2
              · omega
              · omega
          · have hft := CardZone.remove_fail_total hf
            show (s.deck.remove_card c0 1).2.total_cards + s.dealer_hand.total_cards
                + s.discard.total_cards + s.face_down.total_cards
                + PyDict.sumF CardZone.total_cards s.players
              = 52 + s.face_down.total_cards + PyDict.getD "UNKNOWN" s.discard.cards
            omega
        · rw [if_neg hb]
          have hs : 1 ≤ PyDict.getD (normCard c0) s.deck.cards := by
            rcases Nat.lt_or_ge (PyDict.getD (normCard c0) s.deck.cards) 1 with hlt | hge
            · exfalso
              apply hb
              cases hft : (s.deck.remove_card c0 1).1
              · rfl
              · exact absurd ((CardZone.remove_fst_true_iff s.deck c0 1).mp hft) (by omega)
            · exact hge
          have hcr : normCard c0 ∈ rankList :=
            hdeck _ (PyDict.mem_of_lookup (PyDict.getD_pos_lookup (lt_of_lt_of_le one_pos hs)))
              (lt_of_lt_of_le one_pos hs)
          have hdnd := CardZone.remove_nodup c0 le_rfl w1
          have hdt := CardZone.remove_total_success le_rfl hs
          have hdeck2 : ∀ p ∈ (s.deck.remove_card c0 1).2.cards,
              0 < p.2 → p.1 ∈ rankList := by
            intro p hp hpos
            rcases CardZone.remove_mem le_rfl hp with hm | ⟨hk, hv2⟩
            · exact hdeck p hm hpos
            · rcases hv2 with hv2 | hv2
              · rw [hk]
                exact hcr
              · omega
          have hvpos : 1 ≤ v := Nat.one_le_iff_ne_zero.mpr hv
          have hsumge : 1 ≤ PyDict.sumVals s.face_down_owners :=
            le_trans hvpos (PyDict.le_sum_of_lookup hl)
          have hfdpos : 1 ≤ s.face_down.total_cards := hsum ▸ hsumge
          obtain ⟨m, hm⟩ : ∃ m, s.face_down.cards = [("FACEDOWN", m)] := by
            rcases hfd with hfd0 | hfd0
            · exfalso
              rw [CardZone.total_cards, hfd0] at hfdpos
              simp [PyDict.sumVals] at hfdpos
            · exact hfd0
          have htm : s.face_down.total_cards = m := by
            rw [CardZone.total_cards, hm]
            simp [PyDict.sumVals]
          have hmpos : 1 ≤ m := htm ▸ hfdpos
          have hfdr := fd_remove hm hmpos
          have hgk : PyDict.getD (ownerKey t) s.face_down_owners = v := by
            simp [PyDict.getD, hl]
          have hosum : PyDict.sumVals (if v - 1 = 0 then
                PyDict.erase (ownerKey t) (PyDict.set (ownerKey t) (v - 1) s.face_down_owners)
              else PyDict.set (ownerKey t) (v - 1) s.face_down_owners) + 1
              = PyDict.sumVals s.face_down_owners := by
            have e2 := PyDict.sum_set (ownerKey t) (v - 1) s.face_down_owners
            by_cases h10 : v - 1 = 0
            · rw [if_pos h10]
              have e1 := PyDict.sum_erase (ownerKey t)
                (PyDict.set (ownerKey t) (v - 1) s.face_down_owners)
              have e3 := PyDict.getD_set_self (ownerKey t) (v - 1) s.face_down_owners
              omega
            · rw [if_neg h10]
              omega
          have hond : (PyDict.keys (if v - 1 = 0 then
                PyDict.erase (ownerKey t) (PyDict.set (ownerKey t) (v - 1) s.face_down_owners)
              else PyDict.set (ownerKey t) (v - 1) s.face_down_owners)).Nodup := by
            by_cases h10 : v - 1 = 0
            · rw [if_pos h10]
              exact PyDict.nodup_keys_erase _ (PyDict.nodup_keys_set _ _ w5)
            · rw [if_neg h10]
              exact PyDict.nodup_keys_set _ _ w5
          have hfnd : (PyDict.keys (s.face_down.remove_card "FACEDOWN" 1).2.cards).Nodup := by
            rcases hfdr.1 with hc | hc
            · rw [hc]
              simp [PyDict.keys]
            · rw [hc]
              simp [PyDict.keys]
          cases t with
          | dealer =>
            rw [addToTarget_dealer]
            refine ⟨⟨hdnd, CardZone.add_nodup _ 1 w2, w3, hfnd, hond, w6, w7⟩,
              ?_, ?_, hdeck2, ?_, hplayers, ?_, hbound⟩
            · rcases hfdr.1 with hc | hc
              · exact Or.inl hc
              · exact Or.inr ⟨m - 1, hc⟩
            · show PyDict.sumVals (if v - 1 = 0 then
                    PyDict.erase (ownerKey Target.dealer)
                      (PyDict.set (ownerKey Target.dealer) (v - 1) s.face_down_owners)
                  else PyDict.set (ownerKey Target.dealer) (v - 1) s.face_down_owners)
                = (s.face_down.remove_card "FACEDOWN" 1).2.total_cards
              rw [hfdr.2]
              omega
            · intro p hp
              rcases CardZone.add_mem hp with hm2 | hm2
              · exact hdealer p hm2
              · rw [hm2]
                exact ⟨hcr, by omega⟩
            · have hat := CardZone.add_total s.dealer_hand c0 1
              show (s.deck.remove_card c0 1).2.total_cards
                  + (s.dealer_hand.add_card c0 1).total_cards + s.discard.total_cards
                  + (s.face_down.remove_card "FACEDOWN" 1).2.total_cards
                  + PyDict.sumF CardZone.total_cards s.players
                = 52 + (s.face_down.remove_card "FACEDOWN" 1).2.total_cards
                  + PyDict.getD "UNKNOWN" s.discard.cards
              rw [hfdr.2]
              omega
          | player n z =>
            have hpz := resolveWho_player hres
            have hpz2 : PyDict.lookup n ({ s with
                deck := (s.deck.remove_card c0 1).2
                face_down := (s.face_down.remove_card "FACEDOWN" 1).2
                face_down_owners := if v - 1 = 0 then
                    PyDict.erase (ownerKey (Target.player n z))
                      (PyDict.set (ownerKey (Target.player n z)) (v - 1) s.face_down_owners)
                  else PyDict.set (ownerKey (Target.player n z)) (v - 1) s.face_down_owners
              } : GameState).players = some z := hpz
            rw [addToTarget_player c0 hpz2]
            have hmem := PyDict.mem_of_lookup hpz
            refine ⟨⟨hdnd, w2, w3, hfnd, hond, PyDict.nodup_keys_set _ _ w6, ?_⟩,
              ?_, ?_, hdeck2, hdealer, ?_, ?_, ?_⟩
            · intro p hp
              rcases PyDict.mem_set hp with hm2 | hm2
              · exact w7 p hm2
              · rw [hm2]
                exact CardZone.add_nodup _ 1 (w7 _ hmem)
            · rcases hfdr.1 with hc | hc
              · exact Or.inl hc
              · exact Or.inr ⟨m - 1, hc⟩
            · show PyDict.sumVals (if v - 1 = 0 then
                    PyDict.erase (ownerKey (Target.player n z))
                      (PyDict.set (ownerKey (Target.player n z)) (v - 1) s.face_down_owners)
                  else PyDict.set (ownerKey (Target.player n z)) (v - 1) s.face_down_owners)
                = (s.face_down.remove_card "FACEDOWN" 1).2.total_cards
              rw [hfdr.2]
              omega
            · intro p hp
              rcases PyDict.mem_set hp with hm2 | hm2
              · exact hplayers p hm2
              · rw [hm2]
                intro q hq
                rcases CardZone.add_mem hq with hqm | hqm
                · exact hplayers _ hmem q hqm
                · rw [hqm]
                  exact ⟨hcr, by omega⟩
            · have hps := PyDict.sumF_set CardZone.total_cards (z.add_card c0 1) hpz
              have hat := CardZone.add_total z c0 1
              show (s.deck.remove_card c0 1).2.total_cards
                  + s.dealer_hand.total_cards + s.discard.total_cards
                  + (s.face_down.remove_card "FACEDOWN" 1).2.total_cards
                  + PyDict.sumF CardZone.total_cards
                      (PyDict.set n (z.add_card c0 1) s.players)
                = 52 + (s.face_down.remove_card "FACEDOWN" 1).2.total_cards
                  + PyDict.getD "UNKNOWN" s.discard.cards
              rw [hfdr.2]
              omega
            · intro p hp
              rcases PyDict.mem_set hp with hm2 | hm2
              · exact hbound p hm2
              · rw [hm2]
                exact hbound (n, z) hmem

end GameState


namespace GameState

theorem inv_clear_hands {s : GameState} (h : Inv s) : Inv s.clear_hands := by
  obtain ⟨⟨w1, w2, w3, w4, w5, w6, w7⟩, hfd, hsum, hdeck, hdealer, hplayers, hgrand, hbound⟩ := h
  unfold clear_hands
  unfold grand_total playersTotal at hgrand
  have hpcmem : ∀ x ∈ (s.players.map (fun (p : Int × CardZone) => (p.2.clear).1)).flatten,
      x ∈ rankList := by
    intro x hx
    simp only [List.mem_flatten, List.mem_map] at hx
    obtain ⟨l, ⟨p, hp, hl⟩, hxl⟩ := hx
    rw [← hl] at hxl
    obtain ⟨q, hq, hq1, hq2⟩ := CardZone.mem_get_all hxl
    rw [← hq1]
    exact (hplayers p hp q hq).1
  have hdcmem : ∀ x ∈ (s.dealer_hand.clear).1, x ∈ rankList := by
    intro x hx
    obtain ⟨q, hq, hq1, hq2⟩ := CardZone.mem_get_all hx
    rw [← hq1]
    exact (hdealer q hq).1
  have hpcne : ∀ x ∈ (s.players.map (fun (p : Int × CardZone) => (p.2.clear).1)).flatten,
      normCard x ≠ "UNKNOWN" := by
    intro x hx
    rw [normCard_rank x (hpcmem x hx)]
    exact rank_ne_unknown x (hpcmem x hx)
  have hdcne : ∀ x ∈ (s.dealer_hand.clear).1, normCard x ≠ "UNKNOWN" := by
    intro x hx
    rw [normCard_rank x (hdcmem x hx)]
    exact rank_ne_unknown x (hdcmem x hx)
  have hpclen : ((s.players.map (fun (p : Int × CardZone) => (p.2.clear).1)).flatten).length
      = PyDict.sumF CardZone.total_cards s.players := by
    rw [List.length_flatten, List.map_map]
    unfold PyDict.sumF
    congr 1
    apply List.map_congr_left
    intro p _
    exact CardZone.length_get_all p.2
  have hdclen : ((s.dealer_hand.clear).1).length = s.dealer_hand.total_cards :=
    CardZone.length_get_all s.dealer_hand
  have hkeys : PyDict.keys (s.players.map (fun (p : Int × CardZone) => (p.1, (p.2.clear).2)))
      = PyDict.keys s.players := by
    unfold PyDict.keys
    rw [List.map_map]
    rfl
  have hzero : PyDict.sumF CardZone.total_cards
      (s.players.map (fun (p : Int × CardZone) => (p.1, (p.2.clear).2))) = 0 := by
    unfold PyDict.sumF
    rw [List.map_map]
    apply List.sum_eq_zero
    intro x hx
    simp only [List.mem_map] at hx
    obtain ⟨p, hp, hpx⟩ := hx
    rw [← hpx]
    rfl
  have hzones : ∀ p ∈ s.players.map (fun (p : Int × CardZone) => (p.1, (p.2.clear).2)),
      (PyDict.keys p.2.cards).Nodup ∧ HandOk p.2 ∧ p.1 < s.next_player_number := by
    intro p hp
    simp only [List.mem_map] at hp
    obtain ⟨q, hq, hqp⟩ := hp
    rw [← hqp]
    refine ⟨by simp [PyDict.keys, CardZone.clear], ?_, hbound q hq⟩
    intro r hr
    simp [CardZone.clear] at hr
  by_cases hc : 0 < s.face_down.total_cards
  · rw [if_pos hc]
    have e1a := addAll_total s.discard
      ((s.players.map (fun (p : Int × CardZone) => (p.2.clear).1)).flatten)
    have e1b := addAll_total
      (addAll s.discard ((s.players.map (fun (p : Int × CardZone) => (p.2.clear).1)).flatten))
      ((s.dealer_hand.clear).1)
    have e1c := addAll_total
      (addAll (addAll s.discard
          ((s.players.map (fun (p : Int × CardZone) => (p.2.clear).1)).flatten))
        ((s.dealer_hand.clear).1))
      (List.replicate s.face_down.total_cards "UNKNOWN")
    rw [List.length_replicate] at e1c
    have e2a := addAll_getD_ne s.discard hpcne
    have e2b := addAll_getD_ne
      (addAll s.discard ((s.players.map (fun (p : Int × CardZone) => (p.2.clear).1)).flatten))
      hdcne
    have e2c := addAll_replicate_getD
      (addAll (addAll s.discard
          ((s.players.map (fun (p : Int × CardZone) => (p.2.clear).1)).flatten))
        ((s.dealer_hand.clear).1))
      "UNKNOWN" s.face_down.total_cards
    rw [normCard_unknown] at e2c
    refine ⟨⟨w1, ?_, ?_, ?_, ?_, ?_, ?_⟩, Or.inl rfl, rfl, hdeck, ?_, ?_, ?_, ?_⟩
    · simp [PyDict.keys, CardZone.clear]
    · exact addAll_nodup _ _ (addAll_nodup _ _ (addAll_nodup _ _ w3))
    · simp [PyDict.keys, CardZone.clear]
    · simp [PyDict.keys]
    · rw [hkeys]
      exact w6
    · intro p hp
      exact (hzones p hp).1
    · intro p hp
      simp [CardZone.clear] at hp
    · intro p hp
      exact (hzones p hp).2.1
    · show s.deck.total_cards + CardZone.total_cards ⟨s.dealer_hand.name, []⟩
          + (addAll (addAll (addAll s.discard
              ((s.players.map (fun (p : Int × CardZone) => (p.2.clear).1)).flatten))
            ((s.dealer_hand.clear).1))
            (List.replicate s.face_down.total_cards "UNKNOWN")).total_cards
          + CardZone.total_cards ⟨s.face_down.name, []⟩
          + PyDict.sumF CardZone.total_cards
              (s.players.map (fun (p : Int × CardZone) => (p.1, (p.2.clear).2)))
        = 52 + CardZone.total_cards ⟨s.face_down.name, []⟩
          + PyDict.getD "UNKNOWN" (addAll (addAll (addAll s.discard
              ((s.players.map (fun (p : Int × CardZone) => (p.2.clear).1)).flatten))
            ((s.dealer_hand.clear).1))
            (List.replicate s.face_down.total_cards "UNKNOWN")).cards
      have hz1 : CardZone.total_cards ⟨s.dealer_hand.name, []⟩ = 0 := rfl
      have hz2 : CardZone.total_cards ⟨s.face_down.name, []⟩ = 0 := rfl
      omega
    · intro p hp
      exact (hzones p hp).2.2
  · rw [if_neg hc]
    have hc0 : s.face_down.total_cards = 0 := by omega
    have e1a := addAll_total s.discard
      ((s.players.map (fun (p : Int × CardZone) => (p.2.clear).1)).flatten)
    have e1b := addAll_total
      (addAll s.discard ((s.players.map (fun (p : Int × CardZone) => (p.2.clear).1)).flatten))
      ((s.dealer_hand.clear).1)
    have e2a := addAll_getD_ne s.discard hpcne
    have e2b := addAll_getD_ne
      (addAll s.discard ((s.players.map (fun (p : Int × CardZone) => (p.2.clear).1)).flatten))
      hdcne
    refine ⟨⟨w1, ?_, ?_, w4, ?_, ?_, ?_⟩, hfd, ?_, hdeck, ?_, ?_, ?_, ?_⟩
    · simp [PyDict.keys, CardZone.clear]
    · exact addAll_nodup _ _ (addAll_nodup _ _ w3)
    · simp [PyDict.keys]
    · rw [hkeys]
      exact w6
    · intro p hp
      exact (hzones p hp).1
    · show PyDict.sumVals ([] : List (String × Nat)) = s.face_down.total_cards
      rw [hc0]
      rfl
    · intro p hp
      simp [CardZone.clear] at hp
    · intro p hp
      exact (hzones p hp).2.1
    · show s.deck.total_cards + CardZone.total_cards ⟨s.dealer_hand.name, []⟩
          + (addAll (addAll s.discard
              ((s.players.map (fun (p : Int × CardZone) => (p.2.clear).1)).flatten))
            ((s.dealer_hand.clear).1)).total_cards
          + s.face_down.total_cards
          + PyDict.sumF CardZone.total_cards
              (s.players.map (fun (p : Int × CardZone) => (p.1, (p.2.clear).2)))
        = 52 + s.face_down.total_cards
          + PyDict.getD "UNKNOWN" (addAll (addAll s.discard
              ((s.players.map (fun (p : Int × CardZone) => (p.2.clear).1)).flatten))
            ((s.dealer_hand.clear).1)).cards
      have hz1 : CardZone.total_cards ⟨s.dealer_hand.name, []⟩ = 0 := rfl
      omega
    · intro p hp
      exact (hzones p hp).2.2

end GameState


namespace GameState

theorem inv_step {s t : GameState} (h : Inv s) (hst : Step s t) : Inv t := by
  cases hst with
  | add_player => exact inv_add_player h
  | deal card tz => exact inv_deal h card tz
  | deal_face_down tz => exact inv_deal_face_down h tz
  | flip who card => exact inv_flip h who card
  | hit card who => exact inv_hit h card who
  | clear_hands => exact inv_clear_hands h
  | shuffle => exact inv_shuffle s

theorem reachable_inv {s : GameState} (h : Reachable s) : Inv s := by
  induction h with
  | init => exact inv_new
  | step hr hst ih => exact inv_step ih hst

end GameState


open GameState

/-- C1, counterexample: from a fresh state, the valid operation deal_face_down to the
dealer succeeds and leaves the conservation sum deck + dealer + discard + face_down +
players at 53, not 52, because no card is removed from the deck for the reservation. -/
theorem conservation_counterexample :
    (GameState.new.deal_face_down "dealer").2 = Res.ok ∧
    (GameState.new.deal_face_down "dealer").1.grand_total = 53 ∧
    ¬ (GameState.new.deal_face_down "dealer").1.grand_total = 52 := by
  refine ⟨by decide, by decide, by decide⟩

/-- C1, amended: on every reachable state the conservation sum equals 52 plus the
outstanding face-down count plus the UNKNOWN units in discard; each face-down
reservation and each UNKNOWN discard unit inflates the sum by one because
deal_face_down never removes a rank from the deck. -/
theorem grand_total_invariant {s : GameState} (h : Reachable s) :
    s.grand_total = 52 + s.face_down.total_cards + PyDict.getD "UNKNOWN" s.discard.cards :=
  (reachable_inv h).2.2.2.2.2.2.1

/-- Witness for the amended C1 at the fresh state. -/
theorem grand_total_invariant_witness :
    GameState.new.grand_total
      = 52 + GameState.new.face_down.total_cards
        + PyDict.getD "UNKNOWN" GameState.new.discard.cards :=
  grand_total_invariant Reachable.init

/-- C5: remove_card on an absent rank reports failure but leaves a zero-count entry
in the mapping (the defaultdict read inserts the key), violating the stated key-set
invariant; evaluated here on an empty zone. -/
theorem remove_absent_leaves_zero_entry :
    ((CardZone.mk "Dealer Hand" []).remove_card "A" 1).1 = false ∧
    ((CardZone.mk "Dealer Hand" []).remove_card "A" 1).2.cards = [("A", 0)] := by
  refine ⟨by decide, by decide⟩

/-- C7: shuffle leaves the deck holding exactly four of each of the thirteen ranks
(52 cards), empties the dealer hand, discard, face-down zone and the owner ledger,
removes all players and resets the player counter to 1, from any state. -/
theorem shuffle_resets (s : GameState) :
    s.shuffle.deck.cards = deckFullCards ∧
    (∀ r ∈ rankList, PyDict.getD r s.shuffle.deck.cards = 4) ∧
    s.shuffle.deck.total_cards = 52 ∧
    s.shuffle.dealer_hand.cards = [] ∧
    s.shuffle.discard.cards = [] ∧
    s.shuffle.face_down.cards = [] ∧
    s.shuffle.face_down_owners = [] ∧
    s.shuffle.players = [] ∧
    s.shuffle.next_player_number = 1 := by
  rw [shuffle_eq]
  refine ⟨rfl, ?_, rfl, rfl, rfl, rfl, rfl, rfl, rfl⟩
  show ∀ r ∈ rankList, PyDict.getD r deckFullCards = 4
  decide

/-- C8: deserializing the record produced by serializing any state reproduces the
state exactly in every component. -/
theorem from_dict_to_dict_roundtrip (s : GameState) :
    GameState.from_dict (GameState.to_dict s) = s := by
  unfold GameState.from_dict GameState.to_dict
  rw [List.map_map]
  rw [show ((fun (p : Int × CardZoneDict) => (p.1, CardZone.from_dict p.2))
      ∘ (fun (p : Int × CardZone) => (p.1, p.2.to_dict))) = (fun p => p) from rfl]
  rw [List.map_id']
  rfl

/-- C9: on every reachable state the values of face_down_owners sum to exactly the
total of the face-down zone. -/
theorem face_down_owner_sum_invariant {s : GameState} (h : Reachable s) :
    PyDict.sumVals s.face_down_owners = s.face_down.total_cards :=
  (reachable_inv h).2.2.1

/-- Witness for C9 at the fresh state. -/
theorem face_down_owner_sum_invariant_witness :
    PyDict.sumVals GameState.new.face_down_owners = GameState.new.face_down.total_cards :=
  face_down_owner_sum_invariant Reachable.init


/-- Modelled from the claim wording of C4: the provisional value of one rank label,
10 for each face card, 11 for an ace, the face value for a numeral. -/
def specCardValue (c : String) : Int :=
  if c = "J" ∨ c = "Q" ∨ c = "K" then 10
  else if c = "A" then 11
  else (pyInt c).getD 0

/-- Modelled from the claim wording of C4: while the total exceeds 21 and an ace is
still counted as 11, subtract 10 and decrement the counted-as-11 ace count. -/
def specAdjust : Nat → Int → Int
  | 0, t => t
  | a + 1, t => if 21 < t then specAdjust a (t - 10) else t

/-- Modelled from the claim wording of C4: sum the provisional values, then run the
ace demotion loop with the number of aces. -/
def spec_hand_total (cards : List String) : Int :=
  specAdjust (cards.count "A") (cards.map specCardValue).sum

theorem acesAdjust_eq_specAdjust : ∀ (a : Nat) (t : Int), acesAdjust a t = specAdjust a t := by
  intro a
  induction a with
  | zero => intro t; rfl
  | succ k ih =>
    intro t
    show (if 21 < t then acesAdjust k (t - 10) else t) = if 21 < t then specAdjust k (t - 10) else t
    by_cases h : 21 < t
    · rw [if_pos h, if_pos h, ih]
    · rw [if_neg h, if_neg h]

theorem handLoop_cons_rank {c : String} (hc : c ∈ rankList) (rest : List String)
    (t : Int) (a : Nat) :
    handLoop (c :: rest) t a
      = handLoop rest (t + specCardValue c) (a + if c = "A" then 1 else 0) := by
  fin_cases hc
  · have h1 : normCard "2" = "2" := by decide
    have h2 : pyInt "2" = some 2 := by decide
    simp [handLoop, h1, h2, specCardValue]
  · have h1 : normCard "3" = "3" := by decide
    have h2 : pyInt "3" = some 3 := by decide
    simp [handLoop, h1, h2, specCardValue]
  · have h1 : normCard "4" = "4" := by decide
    have h2 : pyInt "4" = some 4 := by decide
    simp [handLoop, h1, h2, specCardValue]
  · have h1 : normCard "5" = "5" := by decide
    have h2 : pyInt "5" = some 5 := by decide
    simp [handLoop, h1, h2, specCardValue]
  · have h1 : normCard "6" = "6" := by decide
    have h2 : pyInt "6" = some 6 := by decide
    simp [handLoop, h1, h2, specCardValue]
  · have h1 : normCard "7" = "7" := by decide
    have h2 : pyInt "7" = some 7 := by decide
    simp [handLoop, h1, h2, specCardValue]
  · have h1 : normCard "8" = "8" := by decide
    have h2 : pyInt "8" = some 8 := by decide
    simp [handLoop, h1, h2, specCardValue]
  · have h1 : normCard "9" = "9" := by decide
    have h2 : pyInt "9" = some 9 := by decide
    simp [handLoop, h1, h2, specCardValue]
  · have h1 : normCard "10" = "10" := by decide
    have h2 : pyInt "10" = some 10 := by decide
    simp [handLoop, h1, h2, specCardValue]
  · have h1 : normCard "J" = "J" := by decide
    simp [handLoop, h1, specCardValue]
  · have h1 : normCard "Q" = "Q" := by decide
    simp [handLoop, h1, specCardValue]
  · have h1 : normCard "K" = "K" := by decide
    simp [handLoop, h1, specCardValue]
  · have h1 : normCard "A" = "A" := by decide
    simp [handLoop, h1, specCardValue]

theorem handLoop_eq (cards : List String) (hv : ∀ c ∈ cards, c ∈ rankList) :
    ∀ (t : Int) (a : Nat), handLoop cards t a
      = some (t + (cards.map specCardValue).sum, a + cards.count "A") := by
  induction cards with
  | nil =>
    intro t a
    simp [handLoop]
  | cons c rest ih =>
    intro t a
    have hc := hv c (List.mem_cons_self c rest)
    have hrest : ∀ x ∈ rest, x ∈ rankList := fun x hx => hv x (List.mem_cons_of_mem c hx)
    rw [handLoop_cons_rank hc rest t a, ih hrest]
    refine congrArg some ?_
    refine Prod.ext ?_ ?_
    · show t + specCardValue c + (rest.map specCardValue).sum
        = t + ((c :: rest).map specCardValue).sum
      simp only [List.map_cons, List.sum_cons]
      ring
    · show a + (if c = "A" then 1 else 0) + rest.count "A" = a + (c :: rest).count "A"
      by_cases hA : c = "A"
      · simp [hA, List.count_cons]
        omega
      · simp [hA, List.count_cons]

theorem calc_eq_spec (cards : List String) (hv : ∀ c ∈ cards, c ∈ rankList) :
    calculate_hand_total cards = some (spec_hand_total cards) := by
  unfold calculate_hand_total spec_hand_total
  rw [handLoop_eq cards hv 0 0]
  refine congrArg some ?_
  show acesAdjust (0 + cards.count "A") (0 + (cards.map specCardValue).sum) = _
  rw [Nat.zero_add, zero_add, acesAdjust_eq_specAdjust]


/-- C4: on every list of rank labels, calculate_hand_total computes exactly the
claimed algorithm (10 per face card, face value per numeral, a provisional 11 per
ace, then the while loop demoting one ace by 10 while the total exceeds 21), and
the four quoted examples evaluate to 21, 20, 15 and 25. -/
theorem hand_total_spec :
    (∀ cards : List String, (∀ c ∈ cards, c ∈ rankList) →
      calculate_hand_total cards = some (spec_hand_total cards)) ∧
    calculate_hand_total ["A", "A", "9"] = some 21 ∧
    calculate_hand_total ["K", "Q"] = some 20 ∧
    calculate_hand_total ["A", "9", "5"] = some 15 ∧
    calculate_hand_total ["10", "10", "5"] = some 25 := by
  refine ⟨calc_eq_spec, by decide, by decide, by decide, by decide⟩

/-- Witness for C4: the general algorithm statement applied at a concrete hand. -/
theorem hand_total_spec_witness :
    calculate_hand_total ["A", "K"] = some (spec_hand_total ["A", "K"]) :=
  hand_total_spec.1 ["A", "K"] (by decide)

namespace GameState

theorem get_hand_cards_valid {s : GameState} (h : Inv s) (who : String) :
    ∀ x ∈ s.get_hand_cards who, x ∈ rankList := by
  unfold get_hand_cards
  by_cases hd : pyLower who = "dealer"
  · rw [if_pos hd]
    intro x hx
    obtain ⟨q, hq, h1, h2⟩ := CardZone.mem_get_all hx
    rw [← h1]
    exact (h.2.2.2.2.1 q hq).1
  · rw [if_neg hd]
    cases hg : s.get_player_zone who with
    | none =>
      intro x hx
      exact absurd (show x ∈ ([] : List String) from hx) (List.not_mem_nil x)
    | some nz =>
      intro x hx
      have hx2 : x ∈ nz.2.get_all_cards := hx
      obtain ⟨q, hq, h1, h2⟩ := CardZone.mem_get_all hx2
      rw [← h1]
      exact (h.2.2.2.2.2.1 (nz.1, nz.2) (PyDict.mem_of_lookup (get_player_zone_lookup hg))
        q hq).1

end GameState

/-- C10: on every reachable state, the dealer hand and every player hand carry only
labels from the closed rank set (so never the FACEDOWN or UNKNOWN sentinels), and
totaling any hand obtained through get_hand_cards never hits a failing int
conversion. -/
theorem reachable_hands_valid_ranks {s : GameState} (h : Reachable s) :
    (∀ p ∈ s.dealer_hand.cards, p.1 ∈ rankList) ∧
    (∀ q ∈ s.players, ∀ p ∈ q.2.cards, p.1 ∈ rankList) ∧
    (∀ who : String, ∃ t : Int, calculate_hand_total (s.get_hand_cards who) = some t) := by
  have hi := reachable_inv h
  refine ⟨fun p hp => (hi.2.2.2.2.1 p hp).1,
    fun q hq p hp => (hi.2.2.2.2.2.1 q hq p hp).1, ?_⟩
  intro who
  exact ⟨spec_hand_total (s.get_hand_cards who),
    calc_eq_spec _ (GameState.get_hand_cards_valid hi who)⟩

/-- Witness for C10 at the fresh state. -/
theorem reachable_hands_valid_ranks_witness :
    (∀ p ∈ GameState.new.dealer_hand.cards, p.1 ∈ rankList) ∧
    (∀ q ∈ GameState.new.players, ∀ p ∈ q.2.cards, p.1 ∈ rankList) ∧
    (∀ who : String, ∃ t : Int,
      calculate_hand_total (GameState.new.get_hand_cards who) = some t) :=
  reachable_hands_valid_ranks Reachable.init


namespace GameState

theorem deal_invalid_target {s : GameState} (hnd : (PyDict.keys s.deck.cards).Nodup)
    (card tz : String)
    (hrem : (s.deck.remove_card (normCard card) 1).1 = true)
    (hdl : pyLower tz ≠ "dealer") (hgz : s.get_player_zone tz = none) :
    (s.deal_card card tz).2 = Res.invalidTarget ∧
    (∀ r, PyDict.getD r (s.deal_card card tz).1.deck.cards = PyDict.getD r s.deck.cards) ∧
    (s.deal_card card tz).1.deck.total_cards = s.deck.total_cards := by
  unfold deal_card
  generalize hc : normCard card = c0 at hrem
  have hs : 1 ≤ PyDict.getD (normCard c0) s.deck.cards :=
    (CardZone.remove_fst_true_iff s.deck c0 1).mp hrem
  have hb : ¬ ((s.deck.remove_card c0 1).1 = false) := by
    rw [hrem]
    simp
  rw [if_neg hb, if_neg hdl, hgz]
  refine ⟨rfl, ?_, ?_⟩
  · intro r
    show PyDict.getD r ((s.deck.remove_card c0 1).2.add_card c0 1).cards
        = PyDict.getD r s.deck.cards
    by_cases hr : r = normCard c0
    · rw [hr, CardZone.add_getD_self, CardZone.remove_getD_self le_rfl hs hnd]
      omega
    · rw [CardZone.add_getD_ne _ _ _ hr, CardZone.remove_getD_ne c0 le_rfl hr]
  · show ((s.deck.remove_card c0 1).2.add_card c0 1).total_cards = s.deck.total_cards
    have h1 := CardZone.add_total (s.deck.remove_card c0 1).2 c0 1
    have h2 := CardZone.remove_total_success le_rfl hs
    omega

end GameState

/-- C6: when deal or hit succeeds in removing the rank from the deck but the target
token resolves to neither the dealer nor an existing player, the removed card is
returned to the deck before the invalid-target failure is reported, so every rank
count of the deck (and its total) is exactly as before the call. -/
theorem invalid_target_restores_deck {s : GameState}
    (hnd : (PyDict.keys s.deck.cards).Nodup) (card tz : String)
    (hrem : (s.deck.remove_card (normCard card) 1).1 = true)
    (hdl : pyLower tz ≠ "dealer") (hgz : s.get_player_zone tz = none) :
    ((s.deal_card card tz).2 = Res.invalidTarget ∧
      (∀ r, PyDict.getD r (s.deal_card card tz).1.deck.cards = PyDict.getD r s.deck.cards) ∧
      (s.deal_card card tz).1.deck.total_cards = s.deck.total_cards) ∧
    ((s.hit card tz).2 = Res.invalidTarget ∧
      (∀ r, PyDict.getD r (s.hit card tz).1.deck.cards = PyDict.getD r s.deck.cards) ∧
      (s.hit card tz).1.deck.total_cards = s.deck.total_cards) := by
  have h1 := GameState.deal_invalid_target hnd card tz hrem hdl hgz
  refine ⟨h1, ?_⟩
  rw [GameState.hit_eq_deal]
  exact h1

/-- Witness for C6: dealing an ace to an unknown target from the fresh state. -/
theorem invalid_target_restores_deck_witness :
    ((GameState.new.deal_card "A" "nobody").2 = Res.invalidTarget ∧
      (∀ r, PyDict.getD r (GameState.new.deal_card "A" "nobody").1.deck.cards
        = PyDict.getD r GameState.new.deck.cards) ∧
      (GameState.new.deal_card "A" "nobody").1.deck.total_cards
        = GameState.new.deck.total_cards) ∧
    ((GameState.new.hit "A" "nobody").2 = Res.invalidTarget ∧
      (∀ r, PyDict.getD r (GameState.new.hit "A" "nobody").1.deck.cards
        = PyDict.getD r GameState.new.deck.cards) ∧
      (GameState.new.hit "A" "nobody").1.deck.total_cards
        = GameState.new.deck.total_cards) :=
  invalid_target_restores_deck (by rw [GameState.new_eq]; decide) "A" "nobody"
    (by decide) (by decide) (by decide)


/-- Observable agreement of two states: every zone has the same count for every
rank (and the same name), and the owner ledger, player mapping and counter are
identical; only the key set of a zone mapping may differ by zero-count entries. -/
def SameObservable (s2 s : GameState) : Prop :=
  (∀ r, PyDict.getD r s2.deck.cards = PyDict.getD r s.deck.cards) ∧
  s2.deck.name = s.deck.name ∧
  s2.dealer_hand = s.dealer_hand ∧
  s2.discard = s.discard ∧
  s2.face_down = s.face_down ∧
  s2.face_down_owners = s.face_down_owners ∧
  s2.players = s.players ∧
  s2.next_player_number = s.next_player_number

theorem sameObservable_refl (s : GameState) : SameObservable s s :=
  ⟨fun _ => rfl, rfl, rfl, rfl, rfl, rfl, rfl, rfl⟩

namespace GameState

theorem deal_fail_observable {s : GameState} (hnd : (PyDict.keys s.deck.cards).Nodup)
    (card tz : String) (hne : (s.deal_card card tz).2 ≠ Res.ok) :
    SameObservable (s.deal_card card tz).1 s := by
  unfold deal_card at hne ⊢
  generalize normCard card = c0 at hne ⊢
  by_cases hb : (s.deck.remove_card c0 1).1 = false
  · rw [if_pos hb]
    have hf : ¬ 1 ≤ PyDict.getD (normCard c0) s.deck.cards := by
      intro hle
      have ht := (CardZone.remove_fst_true_iff s.deck c0 1).mpr hle
      rw [ht] at hb
      exact absurd hb (by simp)
    exact ⟨fun r => CardZone.remove_fail_getD hf r,
      CardZone.remove_name s.deck c0 1, rfl, rfl, rfl, rfl, rfl, rfl⟩
  · rw [if_neg hb] at hne ⊢
    have hs : 1 ≤ PyDict.getD (normCard c0) s.deck.cards := by
      rcases Nat.lt_or_ge (PyDict.getD (normCard c0) s.deck.cards) 1 with hlt | hge
      · exfalso
        apply hb
        cases hft : (s.deck.remove_card c0 1).1
        · rfl
        · exact absurd ((CardZone.remove_fst_true_iff s.deck c0 1).mp hft) (by omega)
      · exact hge
    by_cases hd : pyLower tz = "dealer"
    · rw [if_pos hd] at hne
      exact absurd rfl hne
    · rw [if_neg hd] at hne ⊢
      cases hg : s.get_player_zone tz with
      | some nz =>
        rw [hg] at hne
        exact absurd rfl hne
      | none =>
        refine ⟨?_, ?_, rfl, rfl, rfl, rfl, rfl, rfl⟩
        · intro r
          show PyDict.getD r ((s.deck.remove_card c0 1).2.add_card c0 1).cards
              = PyDict.getD r s.deck.cards
          by_cases hr : r = normCard c0
          · rw [hr, CardZone.add_getD_self, CardZone.remove_getD_self le_rfl hs hnd]
            omega
          · rw [CardZone.add_getD_ne _ _ _ hr, CardZone.remove_getD_ne c0 le_rfl hr]
        · show ((s.deck.remove_card c0 1).2.add_card c0 1).name = s.deck.name
          rw [CardZone.add_name, CardZone.remove_name]

theorem flip_card_cases (s : GameState) (who card : String) :
    s.flip_card who card = (s, Res.invalidTarget) ∨
    s.flip_card who card = (s, Res.noFaceDown) ∨
    ((s.flip_card who card).2 = Res.cardUnavailable ∧
      (s.flip_card who card).1
        = { s with deck := (s.deck.remove_card (normCard card) 1).2 } ∧
      ¬ 1 ≤ PyDict.getD (normCard (normCard card)) s.deck.cards) ∨
    (s.flip_card who card).2 = Res.ok := by
  unfold flip_card
  split
  · left
    rfl
  · split
    · right
      left
      rfl
    · rename_i v hl
      by_cases hv : v = 0
      · rw [if_pos hv]
        right
        left
        rfl
      · rw [if_neg hv]
        by_cases hb : (s.deck.remove_card (normCard card) 1).1 = false
        · rw [if_pos hb]
          right
          right
          left
          refine ⟨rfl, rfl, ?_⟩
          intro hle
          have ht := (CardZone.remove_fst_true_iff s.deck (normCard card) 1).mpr hle
          rw [ht] at hb
          exact absurd hb (by simp)
        · rw [if_neg hb]
          right
          right
          right
          rfl

theorem flip_fail_observable {s : GameState} (who card : String)
    (hne : (s.flip_card who card).2 ≠ Res.ok) :
    SameObservable (s.flip_card who card).1 s := by
  rcases flip_card_cases s who card with hc | hc | ⟨hr, hc, hf⟩ | hc
  · rw [hc]
    exact sameObservable_refl s
  · rw [hc]
    exact sameObservable_refl s
  · rw [hc]
    exact ⟨fun r => CardZone.remove_fail_getD hf r,
      CardZone.remove_name s.deck (normCard card) 1, rfl, rfl, rfl, rfl, rfl, rfl⟩
  · exact absurd hc hne

end GameState

/-- C2, counterexample: a failing deal of a rank absent from the deck reports
failure but mutates the deck mapping, which gains a zero-count entry for the
requested rank, so the state is not identical to the state before the call. -/
theorem atomicity_counterexample :
    (GameState.new.deal_card "JOKER" "dealer").2 ≠ Res.ok ∧
    (GameState.new.deal_card "JOKER" "dealer").1.deck.cards ≠ GameState.new.deck.cards := by
  refine ⟨by decide, by decide⟩

/-- C2, amended: on every reachable state, a deal, hit or flip that reports failure
leaves every zone count of every rank, the owner ledger, the player mapping and the
player counter exactly as before; only the failing zone mapping may gain a
zero-count entry for the requested rank. -/
theorem failure_preserves_counts {s : GameState} (h : Reachable s) (card tz who : String) :
    ((s.deal_card card tz).2 ≠ Res.ok → SameObservable (s.deal_card card tz).1 s) ∧
    ((s.hit card who).2 ≠ Res.ok → SameObservable (s.hit card who).1 s) ∧
    ((s.flip_card who card).2 ≠ Res.ok → SameObservable (s.flip_card who card).1 s) := by
  have hnd : (PyDict.keys s.deck.cards).Nodup := (reachable_inv h).1.1
  refine ⟨fun hne => GameState.deal_fail_observable hnd card tz hne, fun hne => ?_,
    fun hne => GameState.flip_fail_observable who card hne⟩
  rw [GameState.hit_eq_deal] at hne ⊢
  exact GameState.deal_fail_observable hnd card who hne

/-- Witness for the amended C2 at the fresh state with an absent rank. -/
theorem failure_preserves_counts_witness :
    ((GameState.new.deal_card "JOKER" "dealer").2 ≠ Res.ok →
      SameObservable (GameState.new.deal_card "JOKER" "dealer").1 GameState.new) ∧
    ((GameState.new.hit "JOKER" "x").2 ≠ Res.ok →
      SameObservable (GameState.new.hit "JOKER" "x").1 GameState.new) ∧
    ((GameState.new.flip_card "x" "JOKER").2 ≠ Res.ok →
      SameObservable (GameState.new.flip_card "x" "JOKER").1 GameState.new) :=
  failure_preserves_counts Reachable.init "JOKER" "dealer" "x"


theorem classify_fold (hand : List String) (thr : Int) :
    ∀ (l : List (String × Nat)) (g0 l0 e0 : Nat),
      (∀ p ∈ l, ∃ t : Int, calculate_hand_total (hand ++ [p.1]) = some t) →
      ∃ g le e, List.foldl (classifyStep hand thr) (some (g0, l0, e0)) l = some (g, le, e)
        ∧ g + le + e = g0 + l0 + e0 + PyDict.sumVals l := by
  intro l
  induction l with
  | nil =>
    intro g0 l0 e0 _
    exact ⟨g0, l0, e0, rfl, by simp [PyDict.sumVals]⟩
  | cons p rest ih =>
    intro g0 l0 e0 hok
    obtain ⟨t, ht⟩ := hok p (List.mem_cons_self p rest)
    have hrest := fun q hq => hok q (List.mem_cons_of_mem p hq)
    rw [List.foldl_cons]
    have hstep : classifyStep hand thr (some (g0, l0, e0)) p
        = some (if thr < t then (g0 + p.2, l0, e0)
            else if t < thr then (g0, l0 + p.2, e0) else (g0, l0, e0 + p.2)) := by
      unfold classifyStep
      rw [ht]
      show (if thr < t then some (g0 + p.2, l0, e0)
          else if t < thr then some (g0, l0 + p.2, e0) else some (g0, l0, e0 + p.2)) = _
      by_cases h1 : thr < t
      · rw [if_pos h1, if_pos h1]
      · rw [if_neg h1, if_neg h1]
        by_cases h2 : t < thr
        · rw [if_pos h2, if_pos h2]
        · rw [if_neg h2, if_neg h2]
    rw [hstep]
    by_cases h1 : thr < t
    · rw [if_pos h1]
      obtain ⟨g, le, e, hfold, hsum⟩ := ih (g0 + p.2) l0 e0 hrest
      refine ⟨g, le, e, hfold, ?_⟩
      simp only [PyDict.sumVals, List.map_cons, List.sum_cons] at hsum ⊢
      omega
    · rw [if_neg h1]
      by_cases h2 : t < thr
      · rw [if_pos h2]
        obtain ⟨g, le, e, hfold, hsum⟩ := ih g0 (l0 + p.2) e0 hrest
        refine ⟨g, le, e, hfold, ?_⟩
        simp only [PyDict.sumVals, List.map_cons, List.sum_cons] at hsum ⊢
        omega
      · rw [if_neg h2]
        obtain ⟨g, le, e, hfold, hsum⟩ := ih g0 l0 (e0 + p.2) hrest
        refine ⟨g, le, e, hfold, ?_⟩
        simp only [PyDict.sumVals, List.map_cons, List.sum_cons] at hsum ⊢
        omega

/-- A reachable two-operation state: one player holding an ace. -/
def probState2 : GameState := ((GameState.new.add_player).deal_card "A" "1").1

/-- A reachable three-operation state: the failed deal of JOKER has polluted the
deck mapping with a zero-count JOKER entry. -/
def probState3 : GameState := (probState2.deal_card "JOKER" "1").1

theorem probState2_reachable : Reachable probState2 :=
  Reachable.step (Reachable.step Reachable.init (Step.add_player GameState.new))
    (Step.deal GameState.new.add_player "A" "1")

theorem probState3_reachable : Reachable probState3 :=
  Reachable.step probState2_reachable (Step.deal probState2 "JOKER" "1")

/-- C3, counterexample: a reachable state whose resolved hand is non-empty and
whose deck holds 51 cards, on which calculate_probability_after_hit raises (the
int conversion of the zero-count JOKER key fails) instead of classifying the deck
into the three buckets or reporting one of the two sanctioned failures. -/
theorem probability_counterexample :
    Reachable probState3 ∧
    probState3.get_hand_cards "1" ≠ [] ∧
    probState3.deck.total_cards ≠ 0 ∧
    probState3.calculate_probability_after_hit "1" 21 = ProbOutcome.raised := by
  refine ⟨probState3_reachable, by decide, by decide, by decide⟩

/-- C3, amended: on every reachable state whose deck mapping keys all belong to the
closed rank set, the probability query classifies every deck unit into exactly one
bucket, the three buckets sum to the deck total, the three percentages sum to
exactly 100, and the query fails exactly when the hand is empty or the deck is
exhausted. -/
theorem probability_partition {s : GameState} (h : Reachable s)
    (hclean : ∀ p ∈ s.deck.cards, p.1 ∈ rankList) (who : String) (threshold : Int) :
    (s.calculate_probability_after_hit who threshold = ProbOutcome.emptyHand
        ↔ s.get_hand_cards who = []) ∧
    (s.get_hand_cards who ≠ [] →
      (s.calculate_probability_after_hit who threshold = ProbOutcome.deckExhausted
        ↔ s.deck.total_cards = 0)) ∧
    (s.get_hand_cards who ≠ [] → s.deck.total_cards ≠ 0 →
      ∃ g l e, s.calculate_probability_after_hit who threshold
          = ProbOutcome.result g l e s.deck.total_cards ∧
        g + l + e = s.deck.total_cards ∧
        (g : ℚ) / s.deck.total_cards * 100 + (l : ℚ) / s.deck.total_cards * 100
          + (e : ℚ) / s.deck.total_cards * 100 = 100) := by
  have hi := reachable_inv h
  have hmem := GameState.get_hand_cards_valid hi who
  unfold GameState.calculate_probability_after_hit
  by_cases hh : s.get_hand_cards who = []
  · rw [if_pos hh]
    refine ⟨⟨fun _ => hh, fun _ => rfl⟩, fun hne => absurd hh hne, fun hne _ => absurd hh hne⟩
  · rw [if_neg hh]
    rw [calc_eq_spec _ hmem]
    by_cases h0 : PyDict.sumVals s.deck.cards = 0
    · rw [if_pos h0]
      refine ⟨⟨fun he => absurd he (by simp), fun he => absurd he hh⟩, ?_, ?_⟩
      · intro _
        exact ⟨fun _ => h0, fun _ => rfl⟩
      · intro _ hne
        exact absurd h0 hne
    · rw [if_neg h0]
      have hok : ∀ p ∈ s.deck.cards,
          ∃ t : Int, calculate_hand_total (s.get_hand_cards who ++ [p.1]) = some t := by
        intro p hp
        refine ⟨_, calc_eq_spec _ ?_⟩
        intro x hx
        rcases List.mem_append.mp hx with hx | hx
        · exact hmem x hx
        · rw [List.mem_singleton.mp hx]
          exact hclean p hp
      obtain ⟨g, le, e, hfold, hsum⟩ :=
        classify_fold (s.get_hand_cards who) threshold s.deck.cards 0 0 0 hok
      rw [hfold]
      refine ⟨⟨fun he => absurd he (by simp), fun he => absurd he hh⟩, ?_, ?_⟩
      · intro _
        exact ⟨fun he => absurd he (by simp), fun he => absurd he h0⟩
      · intro _ _
        refine ⟨g, le, e, rfl, ?_, ?_⟩
        · show g + le + e = PyDict.sumVals s.deck.cards
          omega
        have hsum2 : g + le + e = PyDict.sumVals s.deck.cards := by omega
        have hT : ((PyDict.sumVals s.deck.cards : Nat) : ℚ) ≠ 0 :=
          Nat.cast_ne_zero.mpr h0
        show (g : ℚ) / (PyDict.sumVals s.deck.cards : Nat) * 100
            + (le : ℚ) / (PyDict.sumVals s.deck.cards : Nat) * 100
            + (e : ℚ) / (PyDict.sumVals s.deck.cards : Nat) * 100 = 100
        have hcast : ((g : ℚ) + le + e) = ((PyDict.sumVals s.deck.cards : Nat) : ℚ) := by
          exact_mod_cast hsum2
        field_simp
        linarith

/-- Witness for the amended C3 on a clean reachable state with one ace dealt. -/
theorem probability_partition_witness :
    (probState2.calculate_probability_after_hit "1" 21 = ProbOutcome.emptyHand
        ↔ probState2.get_hand_cards "1" = []) ∧
    (probState2.get_hand_cards "1" ≠ [] →
      (probState2.calculate_probability_after_hit "1" 21 = ProbOutcome.deckExhausted
        ↔ probState2.deck.total_cards = 0)) ∧
    (probState2.get_hand_cards "1" ≠ [] → probState2.deck.total_cards ≠ 0 →
      ∃ g l e, probState2.calculate_probability_after_hit "1" 21
          = ProbOutcome.result g l e probState2.deck.total_cards ∧
        g + l + e = probState2.deck.total_cards ∧
        (g : ℚ) / probState2.deck.total_cards * 100
          + (l : ℚ) / probState2.deck.total_cards * 100
          + (e : ℚ) / probState2.deck.total_cards * 100 = 100) :=
  probability_partition probState2_reachable (by decide) "1" 21


/-- Witness for C7 at the fresh state. -/
theorem shuffle_resets_witness :
    GameState.new.shuffle.deck.cards = deckFullCards ∧
    (∀ r ∈ rankList, PyDict.getD r GameState.new.shuffle.deck.cards = 4) ∧
    GameState.new.shuffle.deck.total_cards = 52 ∧
    GameState.new.shuffle.dealer_hand.cards = [] ∧
    GameState.new.shuffle.discard.cards = [] ∧
    GameState.new.shuffle.face_down.cards = [] ∧
    GameState.new.shuffle.face_down_owners = [] ∧
    GameState.new.shuffle.players = [] ∧
    GameState.new.shuffle.next_player_number = 1 :=
  shuffle_resets GameState.new

/-- Witness for C8 at the fresh state. -/
theorem from_dict_to_dict_roundtrip_witness :
    GameState.from_dict (GameState.to_dict GameState.new) = GameState.new :=
  from_dict_to_dict_roundtrip GameState.new

end BlackJ
